import Mathlib

/-!
The keyboard debounce filter of `src/keybinder.c`.

A shallow embedding of the debounce loop of `main` and of `time_diff_ms`,
followed by the properties of the decision engine.

Conventions of the embedding.

* `struct timespec` has two 64-bit signed fields; they are `Int` here and every
  `long long` operation of `time_diff_ms` is reduced to the 64-bit signed range
  by `wrap64`.
* `struct input_event` is kept to the three fields the loop reads and writes
  (`type`, `code`, `value`); its `time` field is never read by the program.
* `key_states[MAX_KEYS]` is a table with exactly `MAX_KEYS` cells.  A read or a
  write at an index is `none` when the index is not below `MAX_KEYS`, so an
  out-of-bounds access of the C array shows up as the loop body returning `none`.
* `clock_gettime(CLOCK_MONOTONIC, &now)` is an input of the loop body: every
  event comes with the clock reading taken while it is processed.
* `libevdev_uinput_write_event` appends to the list of written events; the
  `continue` of line 126 leaves the loop body without writing.
-/

namespace Keybinder

/-! ## Constants -/

/-- Debounce time in milliseconds (`#define DEBOUNCE_TIME_MS 90`). -/
def DEBOUNCE_TIME_MS : Int := 90

/-- Maximum number of keys to track (`#define MAX_KEYS 256`). -/
def MAX_KEYS : Nat := 256

/-- Grace period of `main` in milliseconds (`int startup_grace_ms = 1000`). -/
def startup_grace_ms : Int := 1000

/-- Event type of key events, `EV_KEY` of `<linux/input-event-codes.h>` (0x01). -/
def EV_KEY : Nat := 1

/-! ## Data model -/

/-- The `struct timespec` of `<time.h>`: seconds and nanoseconds. -/
structure timespec where
  tv_sec : Int
  tv_nsec : Int
deriving DecidableEq, Repr

/-- The `struct key_state` of lines 19-22. -/
structure key_state where
  last_press : timespec
  is_pressed : Int
deriving DecidableEq, Repr

/-- The fields of `struct input_event` used by the program. -/
structure input_event where
  type : Nat
  code : Nat
  value : Int
deriving DecidableEq, Repr

/-- The array `struct key_state key_states[MAX_KEYS]`. -/
abbrev KeyTable := Fin MAX_KEYS → key_state

/-- The table after `= {0}` (line 82): every cell is all zeroes. -/
def zero_table : KeyTable := fun _ => ⟨⟨0, 0⟩, 0⟩

/-- Reading `key_states[i]`; `none` when `i` is outside the array. -/
def key_at (ks : KeyTable) (i : Nat) : Option key_state :=
  if h : i < MAX_KEYS then some (ks ⟨i, h⟩) else none

/-- Writing `key_states[i] = s`; `none` when `i` is outside the array. -/
def key_store (ks : KeyTable) (i : Nat) (s : key_state) : Option KeyTable :=
  if h : i < MAX_KEYS then some (Function.update ks ⟨i, h⟩ s) else none

/-- The assignment `key_states[i].last_press = t`. -/
def set_last_press (ks : KeyTable) (i : Nat) (t : timespec) : Option KeyTable :=
  (key_at ks i).bind fun s => key_store ks i { s with last_press := t }

/-- The assignment `key_states[i].is_pressed = v`. -/
def set_is_pressed (ks : KeyTable) (i : Nat) (v : Int) : Option KeyTable :=
  (key_at ks i).bind fun s => key_store ks i { s with is_pressed := v }

/-! ## `time_diff_ms` (lines 32-36) -/

/-- Reduction of an integer to the range of a 64-bit signed `long long`. -/
def wrap64 (x : Int) : Int :=
  (x + 9223372036854775808) % 18446744073709551616 - 9223372036854775808

/-- The expression `(long long)ts->tv_sec * 1000 + ts->tv_nsec / 1000000`. -/
def to_ms (ts : timespec) : Int :=
  wrap64 (wrap64 (ts.tv_sec * 1000) + ts.tv_nsec.tdiv 1000000)

/-- Calculate time difference in milliseconds. -/
def time_diff_ms (start end_ : timespec) : Int :=
  let start_ms := to_ms start
  let end_ms := to_ms end_
  wrap64 (end_ms - start_ms)

/-! ## The loop body (lines 96-143, the `LIBEVDEV_READ_STATUS_SUCCESS` branch) -/

/-- The flag `in_grace_period` of lines 106-107:
`time_diff_ms(&startup_time, &now) < startup_grace_ms`. -/
def in_grace_period (startup_time now : timespec) : Bool :=
  let time_since_startup := time_diff_ms startup_time now
  decide (time_since_startup < startup_grace_ms)

/-- Outcome of one run of the loop body: the table afterwards and the event
handed to `libevdev_uinput_write_event`, if any. -/
structure LoopResult where
  key_states : KeyTable
  written : Option input_event

/-- The two assignments `last_press = now; is_pressed = 1` (lines 113-114 and
lines 130-131), after which control reaches the write of line 143. -/
def accept_press (key_states : KeyTable) (ev : input_event) (now : timespec) :
    Option LoopResult :=
  (set_last_press key_states ev.code now).bind fun ks1 =>
  (set_is_pressed ks1 ev.code 1).bind fun ks2 =>
  some ⟨ks2, some ev⟩

/-- The body of the `while (1)` loop for one successfully read event `ev`,
processed while the monotonic clock reads `now`. -/
def loop_body (startup_time : timespec) (key_states : KeyTable)
    (ev : input_event) (now : timespec) : Option LoopResult :=
  if ev.type = EV_KEY ∧ ev.code < MAX_KEYS then
    if ev.value = 1 then
      if in_grace_period startup_time now then
        accept_press key_states ev now
      else
        (key_at key_states ev.code).bind fun s =>
        let time_since_last : Int :=
          if s.last_press.tv_sec ≠ 0 then time_diff_ms s.last_press now else 0
        if time_since_last > 0 ∧ time_since_last < DEBOUNCE_TIME_MS ∧
            s.is_pressed = 0 then
          some ⟨key_states, none⟩
        else
          accept_press key_states ev now
    else if ev.value = 0 then
      (set_is_pressed key_states ev.code 0).bind fun ks1 =>
      some ⟨ks1, some ev⟩
    else
      some ⟨key_states, some ev⟩
  else
    some ⟨key_states, some ev⟩

/-- The loop over a finite sequence of successfully read events, each with the
clock reading of its processing: the final table and the events written to the
virtual device, in the order of the writes. -/
def run (startup_time : timespec) :
    KeyTable → List (input_event × timespec) → Option (KeyTable × List input_event)
  | ks, [] => some (ks, [])
  | ks, (ev, now) :: rest =>
    (loop_body startup_time ks ev now).bind fun r =>
    (run startup_time r.key_states rest).bind fun p =>
    some (p.1, r.written.toList ++ p.2)

/-! ## Predicates used by the statements -/

/-- The suppression condition of lines 118-124, read off a cell of the table. -/
def bounce_cond (s : key_state) (now : timespec) : Prop :=
  s.last_press.tv_sec ≠ 0 ∧ 0 < time_diff_ms s.last_press now ∧
    time_diff_ms s.last_press now < DEBOUNCE_TIME_MS ∧ s.is_pressed = 0

instance (s : key_state) (now : timespec) : Decidable (bounce_cond s now) := by
  unfold bounce_cond; infer_instance

/-- An event addresses cell `k` when it is a key event with code `k`. -/
def addresses (k : Nat) (ev : input_event) : Prop :=
  ev.type = EV_KEY ∧ ev.code = k

instance (k : Nat) (ev : input_event) : Decidable (addresses k ev) := by
  unfold addresses; infer_instance

/-- Whether the loop body drops the `i`-th event of a sequence (counting from
0): the loop is run over the first `i` events and the body, applied to the
`i`-th event in the table reached, writes nothing. -/
def dropped_at (startup_time : timespec) (ks : KeyTable)
    (evs : List (input_event × timespec)) (i : Nat) : Bool :=
  match run startup_time ks (evs.take i), evs.get? i with
  | some (ksi, _), some (ev, now) =>
    match loop_body startup_time ksi ev now with
    | some r => r.written.isNone
    | none => false
  | _, _ => false

/-- The key event of code `k` and value `v` (1 press, 0 release, 2 autorepeat). -/
def key_event (k : Nat) (v : Int) : input_event := ⟨EV_KEY, k, v⟩

/-- The loop body forwards the event: it returns having written it. -/
def forwards (startup_time : timespec) (ks : KeyTable) (ev : input_event)
    (now : timespec) : Prop :=
  (loop_body startup_time ks ev now).map LoopResult.written = some (some ev)

instance (st : timespec) (ks : KeyTable) (ev : input_event) (now : timespec) :
    Decidable (forwards st ks ev now) := by
  unfold forwards; infer_instance

/-- The loop body drops the event: it returns having written nothing. -/
def drops (startup_time : timespec) (ks : KeyTable) (ev : input_event)
    (now : timespec) : Prop :=
  (loop_body startup_time ks ev now).map LoopResult.written = some none

instance (st : timespec) (ks : KeyTable) (ev : input_event) (now : timespec) :
    Decidable (drops st ks ev now) := by
  unfold drops; infer_instance

/-- The table reached by the loop after a sequence of events. -/
def table_after (startup_time : timespec) (ks : KeyTable)
    (evs : List (input_event × timespec)) : KeyTable :=
  match run startup_time ks evs with
  | some p => p.1
  | none => ks

/-- Order of clock readings: seconds first, then nanoseconds. -/
def timespec_le (a b : timespec) : Prop :=
  a.tv_sec < b.tv_sec ∨ (a.tv_sec = b.tv_sec ∧ a.tv_nsec ≤ b.tv_nsec)

instance (a b : timespec) : Decidable (timespec_le a b) := by
  unfold timespec_le; infer_instance

/-! ## The control flow of `main` (lines 38-160) -/

/-- Return value of `libevdev_next_event` for a read event
(`LIBEVDEV_READ_STATUS_SUCCESS` of `<libevdev/libevdev.h>`). -/
def LIBEVDEV_READ_STATUS_SUCCESS : Int := 0

/-- The errno value `EAGAIN` of Linux. -/
def EAGAIN : Int := 11

/-- The two modes of `libevdev_grab`. -/
inductive libevdev_grab_mode where
  | LIBEVDEV_GRAB
  | LIBEVDEV_UNGRAB
deriving DecidableEq, Repr

/-- The calls `main` makes to the devices, as recorded in order of execution. -/
inductive Call where
  | open_
  | libevdev_new_from_fd
  | libevdev_grab (mode : libevdev_grab_mode)
  | libevdev_uinput_create_from_device
  | libevdev_next_event
  | libevdev_uinput_write_event (ev : input_event)
  | usleep
  | libevdev_uinput_destroy
  | libevdev_free
  | close
deriving DecidableEq, Repr

/-- One return of `libevdev_next_event`: its return code, the event it filled
in and the reading of the clock while the event is processed. -/
structure next_event where
  rc : Int
  ev : input_event
  now : timespec
deriving DecidableEq, Repr

/-- What the outside world answers to `main`: the argument count, the results
of `open`, `libevdev_new_from_fd`, `libevdev_grab` and
`libevdev_uinput_create_from_device`, the clock at line 86 and the successive
returns of `libevdev_next_event`. -/
structure Outside where
  argc : Int
  fd : Int
  rc_new_from_fd : Int
  rc_grab : Int
  rc_uinput_create : Int
  startup_time : timespec
  reads : List next_event

/-- The `while (1)` loop of lines 95-151 over the given returns of
`libevdev_next_event`: the calls made, and whether the loop was left by the
`break` of line 149 (`false`: the returns ran out with the loop still going). -/
def event_loop (startup_time : timespec) : KeyTable → List next_event → List Call × Bool
  | _, [] => ([], false)
  | ks, r :: rest =>
    if r.rc = LIBEVDEV_READ_STATUS_SUCCESS then
      match loop_body startup_time ks r.ev r.now with
      | some res =>
        (Call.libevdev_next_event ::
          (res.written.toList.map Call.libevdev_uinput_write_event ++
            (event_loop startup_time res.key_states rest).1),
          (event_loop startup_time res.key_states rest).2)
      | none => ([Call.libevdev_next_event], false)
    else if r.rc = -EAGAIN then
      (Call.libevdev_next_event :: Call.usleep :: (event_loop startup_time ks rest).1,
        (event_loop startup_time ks rest).2)
    else
      ([Call.libevdev_next_event], true)

/-- The function `main`: the calls it makes and its return value (`none` when
the given returns of `libevdev_next_event` run out inside the loop). -/
def main (o : Outside) : List Call × Option Int :=
  if o.argc ≠ 2 then
    ([], some 1)
  else if o.fd < 0 then
    ([Call.open_], some 1)
  else if o.rc_new_from_fd < 0 then
    ([Call.open_, Call.libevdev_new_from_fd, Call.close], some 1)
  else if o.rc_grab < 0 then
    ([Call.open_, Call.libevdev_new_from_fd,
      Call.libevdev_grab libevdev_grab_mode.LIBEVDEV_GRAB,
      Call.libevdev_free, Call.close], some 1)
  else if o.rc_uinput_create ≠ 0 then
    ([Call.open_, Call.libevdev_new_from_fd,
      Call.libevdev_grab libevdev_grab_mode.LIBEVDEV_GRAB,
      Call.libevdev_uinput_create_from_device,
      Call.libevdev_free, Call.close], some 1)
  else
    let loop := event_loop o.startup_time zero_table o.reads
    let start := [Call.open_, Call.libevdev_new_from_fd,
      Call.libevdev_grab libevdev_grab_mode.LIBEVDEV_GRAB,
      Call.libevdev_uinput_create_from_device]
    if loop.2 then
      (start ++ loop.1 ++
        [Call.libevdev_grab libevdev_grab_mode.LIBEVDEV_UNGRAB,
          Call.libevdev_uinput_destroy, Call.libevdev_free, Call.close], some 0)
    else
      (start ++ loop.1, none)

/-! ## Ranges of the time arithmetic -/

/-- The value is in the range of a 64-bit signed `long long`. -/
def fits64 (x : Int) : Prop :=
  -9223372036854775808 ≤ x ∧ x ≤ 9223372036854775807

instance (x : Int) : Decidable (fits64 x) := by
  unfold fits64; infer_instance

/-- The milliseconds of a timestamp as an unbounded integer, following the
wording "floor-milliseconds(x) = x.tv_sec * 1000 + x.tv_nsec / 1000000". -/
def floor_ms (x : timespec) : Int :=
  x.tv_sec * 1000 + x.tv_nsec / 1000000

/-- No intermediate result of `time_diff_ms(a, b)` leaves the 64-bit signed
range: the two products, the two sums and the difference. -/
def no_overflow (a b : timespec) : Prop :=
  fits64 (a.tv_sec * 1000) ∧ fits64 (floor_ms a) ∧
  fits64 (b.tv_sec * 1000) ∧ fits64 (floor_ms b) ∧
  fits64 (floor_ms b - floor_ms a)

instance (a b : timespec) : Decidable (no_overflow a b) := by
  unfold no_overflow; infer_instance

/-- A reading of the monotonic clock: non-negative seconds, nanoseconds below
one second, and a millisecond value inside the 64-bit signed range. -/
def clock_ok (t : timespec) : Prop :=
  0 ≤ t.tv_sec ∧ 0 ≤ t.tv_nsec ∧ t.tv_nsec < 1000000000 ∧
    floor_ms t ≤ 9223372036854775807

instance (t : timespec) : Decidable (clock_ok t) := by
  unfold clock_ok; infer_instance

/-- The decisions of the loop over a sequence of events: each event with its
clock reading and whether the loop body wrote it (`true`) or dropped it. -/
def decisions (startup_time : timespec) :
    KeyTable → List (input_event × timespec) → List (input_event × timespec × Bool)
  | _, [] => []
  | ks, (ev, now) :: rest =>
    match loop_body startup_time ks ev now with
    | some r => (ev, now, r.written.isSome) :: decisions startup_time r.key_states rest
    | none => []

/-! ## Auxiliary facts about the table and the loop body -/

theorem key_at_lt (ks : KeyTable) {i : Nat} (h : i < MAX_KEYS) :
    key_at ks i = some (ks ⟨i, h⟩) := by
  simp [key_at, h]

theorem key_at_ge (ks : KeyTable) {i : Nat} (h : MAX_KEYS ≤ i) :
    key_at ks i = none := by
  simp [key_at, Nat.not_lt.mpr h]

theorem key_store_lt (ks : KeyTable) {i : Nat} (h : i < MAX_KEYS) (s : key_state) :
    key_store ks i s = some (Function.update ks ⟨i, h⟩ s) := by
  simp [key_store, h]

theorem set_last_press_lt (ks : KeyTable) {i : Nat} (h : i < MAX_KEYS) (t : timespec) :
    set_last_press ks i t =
      some (Function.update ks ⟨i, h⟩ ⟨t, (ks ⟨i, h⟩).is_pressed⟩) := by
  simp [set_last_press, key_at_lt ks h, key_store_lt ks h]

theorem set_is_pressed_lt (ks : KeyTable) {i : Nat} (h : i < MAX_KEYS) (v : Int) :
    set_is_pressed ks i v =
      some (Function.update ks ⟨i, h⟩ ⟨(ks ⟨i, h⟩).last_press, v⟩) := by
  simp [set_is_pressed, key_at_lt ks h, key_store_lt ks h]

theorem accept_press_lt (ks : KeyTable) (ev : input_event) (now : timespec)
    (h : ev.code < MAX_KEYS) :
    accept_press ks ev now =
      some ⟨Function.update ks ⟨ev.code, h⟩ ⟨now, 1⟩, some ev⟩ := by
  simp [accept_press, set_last_press_lt ks h, set_is_pressed_lt _ h]

/-- The loop body on a key event with a tracked code, as a closed expression. -/
theorem loop_body_key (st : timespec) (ks : KeyTable) (ev : input_event) (now : timespec)
    (ht : ev.type = EV_KEY) (h : ev.code < MAX_KEYS) :
    loop_body st ks ev now = some
      (if ev.value = 1 then
        if time_diff_ms st now < startup_grace_ms then
          ⟨Function.update ks ⟨ev.code, h⟩ ⟨now, 1⟩, some ev⟩
        else if bounce_cond (ks ⟨ev.code, h⟩) now then ⟨ks, none⟩
        else ⟨Function.update ks ⟨ev.code, h⟩ ⟨now, 1⟩, some ev⟩
      else if ev.value = 0 then
        ⟨Function.update ks ⟨ev.code, h⟩ ⟨(ks ⟨ev.code, h⟩).last_press, 0⟩, some ev⟩
      else ⟨ks, some ev⟩) := by
  unfold loop_body
  rw [if_pos ⟨ht, h⟩]
  by_cases h1 : ev.value = 1
  · simp only [h1, if_true]
    by_cases hg : time_diff_ms st now < startup_grace_ms
    · simp [in_grace_period, hg, accept_press_lt ks ev now h]
    · simp only [in_grace_period, hg, decide_False, Bool.false_eq_true, if_false, key_at_lt ks h,
        Option.some_bind, accept_press_lt ks ev now h]
      by_cases hs : (ks ⟨ev.code, h⟩).last_press.tv_sec = 0
      · have hb : ¬ bounce_cond (ks ⟨ev.code, h⟩) now := fun hb => hb.1 hs
        simp [hs, hb]
      · by_cases hb : bounce_cond (ks ⟨ev.code, h⟩) now
        · have hb2 := hb
          obtain ⟨_, h2, h3, h4⟩ := hb2
          simp [hs, hb, h2, h3, h4]
        · have : ¬ (time_diff_ms (ks ⟨ev.code, h⟩).last_press now > 0 ∧
              time_diff_ms (ks ⟨ev.code, h⟩).last_press now < DEBOUNCE_TIME_MS ∧
              (ks ⟨ev.code, h⟩).is_pressed = 0) := fun hc => hb ⟨hs, hc.1, hc.2.1, hc.2.2⟩
          simp only [ne_eq, hs, not_false_eq_true, if_true, this, if_false, hb]
  · by_cases h0 : ev.value = 0
    · simp [h0, set_is_pressed_lt ks h]
    · simp [h1, h0]

/-- The loop body on an event that is not a key event with a tracked code. -/
theorem loop_body_other (st : timespec) (ks : KeyTable) (ev : input_event) (now : timespec)
    (h : ¬ (ev.type = EV_KEY ∧ ev.code < MAX_KEYS)) :
    loop_body st ks ev now = some ⟨ks, some ev⟩ := by
  unfold loop_body
  rw [if_neg h]

/-! ## Properties -/

/-- A key event with a tracked code is dropped by the loop body exactly when it
is a press (value 1), processed outside the grace period, for a key whose
`is_pressed` is 0, whose `last_press` passes the test `tv_sec != 0` of line 118
and whose distance `time_diff_ms(last_press, now)` is above 0 and below
`DEBOUNCE_TIME_MS`; and a dropped event leaves the whole table as it was. -/
theorem drop_iff_sentinel (startup_time : timespec) (ks : KeyTable) (ev : input_event)
    (now : timespec) (htype : ev.type = EV_KEY) (hcode : ev.code < MAX_KEYS) :
    ∃ r s, loop_body startup_time ks ev now = some r ∧ key_at ks ev.code = some s ∧
      (r.written = none ↔
        (ev.value = 1 ∧ ¬ time_diff_ms startup_time now < startup_grace_ms ∧
          s.is_pressed = 0 ∧ s.last_press.tv_sec ≠ 0 ∧
          0 < time_diff_ms s.last_press now ∧
          time_diff_ms s.last_press now < DEBOUNCE_TIME_MS)) ∧
      (r.written = none → r.key_states = ks) := by
  refine ⟨_, _, loop_body_key startup_time ks ev now htype hcode, key_at_lt ks hcode, ?_, ?_⟩
  · constructor
    · intro hw
      split_ifs at hw with h1 hg hb h0
      all_goals simp at hw
      exact ⟨h1, hg, hb.2.2.2, hb.1, hb.2.1, hb.2.2.1⟩
    · rintro ⟨h1, hg, hp, hs, hlo, hhi⟩
      have hb : bounce_cond (ks ⟨ev.code, hcode⟩) now := ⟨hs, hlo, hhi, hp⟩
      simp [h1, hg, hb]
  · intro hw
    split_ifs at hw ⊢ with h1 hg hb h0
    all_goals simp at hw ⊢

/-- C1, the press that meets every condition of the suppression row and is
written all the same.  With startup at 0.010 s and the zero table, key 30 is
pressed at 0.950 s (forwarded, so a press has been accepted for the key) and
released at 0.980 s, which leaves its cell at `last_press = {0, 950000000}`,
`is_pressed = 0`.  The press at 1.020 s has value 1, is processed outside the
grace period, finds `is_pressed` 0 and a recorded `last_press`, and comes 70 ms
after it; the loop body forwards it and does not drop it, because line 118
tests `last_press.tv_sec != 0` only. -/
theorem C1_sentinel_press_not_dropped :
    clock_ok ⟨0, 10000000⟩ ∧ clock_ok ⟨0, 950000000⟩ ∧ clock_ok ⟨0, 980000000⟩ ∧
    clock_ok ⟨1, 20000000⟩ ∧
    forwards ⟨0, 10000000⟩ zero_table (key_event 30 1) ⟨0, 950000000⟩ ∧
    table_after ⟨0, 10000000⟩ zero_table
      [(key_event 30 1, ⟨0, 950000000⟩), (key_event 30 0, ⟨0, 980000000⟩)] ⟨30, by decide⟩ =
      ⟨⟨0, 950000000⟩, 0⟩ ∧
    (key_event 30 1).value = 1 ∧
    ¬ time_diff_ms ⟨0, 10000000⟩ ⟨1, 20000000⟩ < startup_grace_ms ∧
    time_diff_ms ⟨0, 950000000⟩ ⟨1, 20000000⟩ = 70 ∧
    forwards ⟨0, 10000000⟩
      (table_after ⟨0, 10000000⟩ zero_table
        [(key_event 30 1, ⟨0, 950000000⟩), (key_event 30 0, ⟨0, 980000000⟩)])
      (key_event 30 1) ⟨1, 20000000⟩ ∧
    ¬ drops ⟨0, 10000000⟩
      (table_after ⟨0, 10000000⟩ zero_table
        [(key_event 30 1, ⟨0, 950000000⟩), (key_event 30 0, ⟨0, 980000000⟩)])
      (key_event 30 1) ⟨1, 20000000⟩ := by
  decide

/-- The loop body always returns, and what it writes is the event it was given
or nothing. -/
theorem loop_body_written (st : timespec) (ks : KeyTable) (ev : input_event)
    (now : timespec) :
    ∃ r, loop_body st ks ev now = some r ∧ (r.written = none ∨ r.written = some ev) := by
  by_cases h : ev.type = EV_KEY ∧ ev.code < MAX_KEYS
  · refine ⟨_, loop_body_key st ks ev now h.1 h.2, ?_⟩
    split_ifs
    all_goals simp
  · exact ⟨_, loop_body_other st ks ev now h, Or.inr rfl⟩

/-- Unfolding of the loop over a non-empty sequence. -/
theorem run_cons (st : timespec) (ks : KeyTable) (ev : input_event) (now : timespec)
    (rest : List (input_event × timespec)) (r : LoopResult) (p : KeyTable × List input_event)
    (hr : loop_body st ks ev now = some r) (hp : run st r.key_states rest = some p) :
    run st ks ((ev, now) :: rest) = some (p.1, r.written.toList ++ p.2) := by
  simp [run, hr, hp]

/-- The loop over a finite sequence of events always returns. -/
theorem run_total (st : timespec) (evs : List (input_event × timespec)) :
    ∀ ks : KeyTable, ∃ p, run st ks evs = some p := by
  induction evs with
  | nil => intro ks; exact ⟨_, rfl⟩
  | cons e rest ih =>
    intro ks
    obtain ⟨ev, now⟩ := e
    obtain ⟨r, hr, _⟩ := loop_body_written st ks ev now
    obtain ⟨p, hp⟩ := ih r.key_states
    exact ⟨_, run_cons st ks ev now rest r p hr hp⟩

/-- Dropping at a later position is dropping in the table after the first event. -/
theorem dropped_at_succ (st : timespec) (ks : KeyTable) (ev : input_event) (now : timespec)
    (rest : List (input_event × timespec)) (r : LoopResult)
    (hr : loop_body st ks ev now = some r) (i : Nat) :
    dropped_at st ks ((ev, now) :: rest) (i + 1) = dropped_at st r.key_states rest i := by
  obtain ⟨p, hp⟩ := run_total st (rest.take i) r.key_states
  unfold dropped_at
  rw [List.take_succ_cons, run_cons st ks ev now _ r p hr hp, hp, List.get?_cons_succ]
  obtain ⟨ksi, o⟩ := p
  cases rest.get? i <;> rfl

/-- C2 (the written sequence is the input sequence without the dropped events):
the loop over a finite sequence of read events returns, and the events written
to the virtual device are the events of the sequence, taken position by position
in arrival order, each once and unchanged, leaving out exactly the positions at
which the loop body drops the event; in particular the written sequence is a
subsequence of the input sequence. -/
theorem C2_written_is_input_without_dropped (startup_time : timespec) (ks : KeyTable)
    (evs : List (input_event × timespec)) :
    ∃ ks1 out, run startup_time ks evs = some (ks1, out) ∧
      out = (List.range evs.length).filterMap (fun i =>
        if dropped_at startup_time ks evs i then none
        else (evs.get? i).map Prod.fst) ∧
      List.Sublist out (evs.map Prod.fst) := by
  induction evs generalizing ks with
  | nil => exact ⟨ks, [], rfl, by simp, by simp⟩
  | cons e rest ih =>
    obtain ⟨ev, now⟩ := e
    obtain ⟨r, hr, hw⟩ := loop_body_written startup_time ks ev now
    obtain ⟨ks1, out, hrun, hout, hsub⟩ := ih r.key_states
    refine ⟨ks1, r.written.toList ++ out, run_cons startup_time ks ev now rest r (ks1, out) hr hrun,
      ?_, ?_⟩
    · have h0 : dropped_at startup_time ks ((ev, now) :: rest) 0 = r.written.isNone := by
        simp [dropped_at, run, hr]
      rw [List.length_cons, List.range_succ_eq_map, List.filterMap_cons, List.filterMap_map, h0]
      have htail : (List.range rest.length).filterMap
          ((fun i => if dropped_at startup_time ks ((ev, now) :: rest) i then none
            else (((ev, now) :: rest).get? i).map Prod.fst) ∘ Nat.succ) = out := by
        rw [hout]
        congr 1
        funext i
        simp [dropped_at_succ startup_time ks ev now rest r hr i]
      rw [htail]
      rcases hw with hw | hw
      · simp [hw]
      · simp [hw]
    · rcases hw with hw | hw
      · simpa [hw] using hsub.cons _
      · simpa [hw] using hsub

theorem table_after_nil (st : timespec) (ks : KeyTable) : table_after st ks [] = ks := rfl

theorem table_after_cons (st : timespec) (ks : KeyTable) (ev : input_event) (now : timespec)
    (rest : List (input_event × timespec)) (r : LoopResult)
    (hr : loop_body st ks ev now = some r) :
    table_after st ks ((ev, now) :: rest) = table_after st r.key_states rest := by
  obtain ⟨p, hp⟩ := run_total st rest r.key_states
  simp [table_after, run_cons st ks ev now rest r p hr hp, hp]

theorem table_after_single (st : timespec) (ks : KeyTable) (ev : input_event) (now : timespec)
    (r : LoopResult) (hr : loop_body st ks ev now = some r) :
    table_after st ks [(ev, now)] = r.key_states := by
  rw [table_after_cons st ks ev now [] r hr, table_after_nil]

theorem table_after_append (st : timespec) (xs ys : List (input_event × timespec)) :
    ∀ ks : KeyTable,
      table_after st ks (xs ++ ys) = table_after st (table_after st ks xs) ys := by
  induction xs with
  | nil => intro ks; rfl
  | cons e rest ih =>
    intro ks
    obtain ⟨ev, now⟩ := e
    obtain ⟨r, hr, _⟩ := loop_body_written st ks ev now
    rw [List.cons_append, table_after_cons st ks ev now _ r hr,
      table_after_cons st ks ev now _ r hr, ih]

/-- An event that does not address cell `k` leaves that cell as it was. -/
theorem loop_body_frame (st : timespec) (ks : KeyTable) (ev : input_event) (now : timespec)
    (r : LoopResult) (hr : loop_body st ks ev now = some r) (k : Nat) (hk : k < MAX_KEYS)
    (hna : ¬ addresses k ev) : r.key_states ⟨k, hk⟩ = ks ⟨k, hk⟩ := by
  by_cases h : ev.type = EV_KEY ∧ ev.code < MAX_KEYS
  · have hne : (⟨k, hk⟩ : Fin MAX_KEYS) ≠ ⟨ev.code, h.2⟩ := by
      intro he
      exact hna ⟨h.1, (Fin.mk.inj he).symm⟩
    rw [loop_body_key st ks ev now h.1 h.2] at hr
    have hr2 := (Option.some.inj hr).symm
    subst hr2
    split_ifs
    all_goals simp [Function.update_noteq hne]
  · rw [loop_body_other st ks ev now h] at hr
    rw [← Option.some.inj hr]

/-- A sequence of events none of which addresses cell `k` leaves that cell as it was. -/
theorem table_after_frame (st : timespec) (k : Nat) (hk : k < MAX_KEYS)
    (evs : List (input_event × timespec)) (hna : ∀ e ∈ evs, ¬ addresses k e.1) :
    ∀ ks : KeyTable, table_after st ks evs ⟨k, hk⟩ = ks ⟨k, hk⟩ := by
  induction evs with
  | nil => intro ks; rfl
  | cons e rest ih =>
    intro ks
    obtain ⟨ev, now⟩ := e
    obtain ⟨r, hr, _⟩ := loop_body_written st ks ev now
    rw [table_after_cons st ks ev now rest r hr,
      ih (fun e he => hna e (List.mem_cons_of_mem _ he)),
      loop_body_frame st ks ev now r hr k hk (hna (ev, now) (List.mem_cons_self _ _))]

/-- The cell of a key after the loop body on one of its events, and whether the
event is forwarded, in terms of the cell before. -/
theorem key_event_effect (st : timespec) (ks : KeyTable) (k : Nat) (hk : k < MAX_KEYS)
    (v : Int) (now : timespec) :
    loop_body st ks (key_event k v) now = some
      (if v = 1 then
        if time_diff_ms st now < startup_grace_ms then
          ⟨Function.update ks ⟨k, hk⟩ ⟨now, 1⟩, some (key_event k v)⟩
        else if bounce_cond (ks ⟨k, hk⟩) now then ⟨ks, none⟩
        else ⟨Function.update ks ⟨k, hk⟩ ⟨now, 1⟩, some (key_event k v)⟩
      else if v = 0 then
        ⟨Function.update ks ⟨k, hk⟩ ⟨(ks ⟨k, hk⟩).last_press, 0⟩, some (key_event k v)⟩
      else ⟨ks, some (key_event k v)⟩) :=
  loop_body_key st ks (key_event k v) now rfl hk

/-- The loop body on a press of a tracked key. -/
theorem press_effect (st : timespec) (ks : KeyTable) (k : Nat) (hk : k < MAX_KEYS)
    (now : timespec) :
    loop_body st ks (key_event k 1) now = some
      (if time_diff_ms st now < startup_grace_ms then
        ⟨Function.update ks ⟨k, hk⟩ ⟨now, 1⟩, some (key_event k 1)⟩
      else if bounce_cond (ks ⟨k, hk⟩) now then ⟨ks, none⟩
      else ⟨Function.update ks ⟨k, hk⟩ ⟨now, 1⟩, some (key_event k 1)⟩) := by
  rw [key_event_effect st ks k hk 1 now, if_pos rfl]

/-- A forwarded press leaves its cell holding the press time and `is_pressed = 1`. -/
theorem forwarded_press_cell (st : timespec) (ks : KeyTable) (k : Nat) (hk : k < MAX_KEYS)
    (now : timespec) (hf : forwards st ks (key_event k 1) now) :
    table_after st ks [(key_event k 1, now)] ⟨k, hk⟩ = ⟨now, 1⟩ := by
  have he := press_effect st ks k hk now
  rw [table_after_single st ks _ now _ he]
  unfold forwards at hf
  rw [he] at hf
  split_ifs at hf ⊢
  all_goals simp at hf ⊢

/-- A release is forwarded and leaves its cell with the former `last_press` and
`is_pressed = 0`. -/
theorem release_effect (st : timespec) (ks : KeyTable) (k : Nat) (hk : k < MAX_KEYS)
    (now : timespec) :
    forwards st ks (key_event k 0) now ∧
      table_after st ks [(key_event k 0, now)] ⟨k, hk⟩ = ⟨(ks ⟨k, hk⟩).last_press, 0⟩ := by
  have he := key_event_effect st ks k hk 0 now
  refine ⟨?_, ?_⟩
  · unfold forwards
    rw [he]
    simp
  · rw [table_after_single st ks _ now _ he]
    simp

/-- C3, counterexample to the wording with the release-to-press distance: from
the zero table with startup at 0, key 30 is pressed at 5.000 s, released at
5.200 s and pressed again at 5.210 s, all outside the grace period; the second
press comes 10 ms after the release, and it is forwarded, not dropped. -/
theorem C3_release_to_press_counterexample :
    ¬ time_diff_ms ⟨0, 0⟩ ⟨5, 0⟩ < startup_grace_ms ∧
    ¬ time_diff_ms ⟨0, 0⟩ ⟨5, 200000000⟩ < startup_grace_ms ∧
    ¬ time_diff_ms ⟨0, 0⟩ ⟨5, 210000000⟩ < startup_grace_ms ∧
    time_diff_ms ⟨5, 0⟩ ⟨5, 200000000⟩ = 200 ∧
    time_diff_ms ⟨5, 200000000⟩ ⟨5, 210000000⟩ = 10 ∧
    forwards ⟨0, 0⟩ zero_table (key_event 30 1) ⟨5, 0⟩ ∧
    forwards ⟨0, 0⟩ (table_after ⟨0, 0⟩ zero_table [(key_event 30 1, ⟨5, 0⟩)])
      (key_event 30 0) ⟨5, 200000000⟩ ∧
    forwards ⟨0, 0⟩ (table_after ⟨0, 0⟩ zero_table
      [(key_event 30 1, ⟨5, 0⟩), (key_event 30 0, ⟨5, 200000000⟩)])
      (key_event 30 1) ⟨5, 210000000⟩ ∧
    ¬ drops ⟨0, 0⟩ (table_after ⟨0, 0⟩ zero_table
      [(key_event 30 1, ⟨5, 0⟩), (key_event 30 0, ⟨5, 200000000⟩)])
      (key_event 30 1) ⟨5, 210000000⟩ := by
  decide

/-- C3 amended (P2 with the press-to-press distance): let a press of a tracked
key `k` at `t0` be forwarded, with `t0.tv_sec != 0`, followed by events that do
not address `k`, a release of `k` at `t1`, again events that do not address
`k`, and a press of `k` at `t2` processed outside the grace period with
`time_diff_ms(t0, t2)` above 0 and below `DEBOUNCE_TIME_MS`.  Then the release
is forwarded and the second press is dropped. -/
theorem C3_bounce_suppressed (startup_time : timespec) (ks : KeyTable) (k : Nat)
    (t0 t1 t2 : timespec) (xs ys : List (input_event × timespec))
    (hk : k < MAX_KEYS)
    (hfwd : forwards startup_time ks (key_event k 1) t0)
    (hsec : t0.tv_sec ≠ 0)
    (hxs : ∀ e ∈ xs, ¬ addresses k e.1) (hys : ∀ e ∈ ys, ¬ addresses k e.1)
    (hgrace : ¬ time_diff_ms startup_time t2 < startup_grace_ms)
    (hlo : 0 < time_diff_ms t0 t2) (hhi : time_diff_ms t0 t2 < DEBOUNCE_TIME_MS) :
    forwards startup_time (table_after startup_time ks ([(key_event k 1, t0)] ++ xs))
      (key_event k 0) t1 ∧
    drops startup_time
      (table_after startup_time ks
        ([(key_event k 1, t0)] ++ xs ++ [(key_event k 0, t1)] ++ ys))
      (key_event k 1) t2 := by
  refine ⟨(release_effect startup_time _ k hk t1).1, ?_⟩
  have hcell : table_after startup_time ks
      ([(key_event k 1, t0)] ++ xs ++ [(key_event k 0, t1)] ++ ys) ⟨k, hk⟩ = ⟨t0, 0⟩ := by
    rw [table_after_append, table_after_frame startup_time k hk ys hys, table_after_append,
      (release_effect startup_time _ k hk t1).2, table_after_append,
      table_after_frame startup_time k hk xs hxs,
      forwarded_press_cell startup_time ks k hk t0 hfwd]
  have hb : bounce_cond (table_after startup_time ks
      ([(key_event k 1, t0)] ++ xs ++ [(key_event k 0, t1)] ++ ys) ⟨k, hk⟩) t2 := by
    rw [hcell]
    exact ⟨hsec, hlo, hhi, rfl⟩
  unfold drops
  rw [press_effect startup_time _ k hk t2, if_neg hgrace, if_pos hb]
  rfl

/-- Witness of C3 amended: key 30 pressed at 5.000 s, key 31 pressed at 5.010 s,
key 30 released at 5.050 s and pressed again at 5.070 s. -/
theorem C3_bounce_suppressed_witness :
    forwards ⟨0, 0⟩ (table_after ⟨0, 0⟩ zero_table
        ([(key_event 30 1, ⟨5, 0⟩)] ++ [(key_event 31 1, ⟨5, 10000000⟩)]))
      (key_event 30 0) ⟨5, 50000000⟩ ∧
    drops ⟨0, 0⟩
      (table_after ⟨0, 0⟩ zero_table
        ([(key_event 30 1, ⟨5, 0⟩)] ++ [(key_event 31 1, ⟨5, 10000000⟩)] ++
          [(key_event 30 0, ⟨5, 50000000⟩)] ++ []))
      (key_event 30 1) ⟨5, 70000000⟩ :=
  C3_bounce_suppressed ⟨0, 0⟩ zero_table 30 ⟨5, 0⟩ ⟨5, 50000000⟩ ⟨5, 70000000⟩
    [(key_event 31 1, ⟨5, 10000000⟩)] [] (by decide) (by decide) (by decide)
    (by decide) (by decide) (by decide) (by decide) (by decide)

/-- A press inside the grace period, or one that does not meet the suppression
condition, is forwarded and leaves its cell at `(now, 1)`. -/
theorem press_forwarded_of (st : timespec) (ks : KeyTable) (k : Nat) (hk : k < MAX_KEYS)
    (now : timespec)
    (h : time_diff_ms st now < startup_grace_ms ∨ ¬ bounce_cond (ks ⟨k, hk⟩) now) :
    forwards st ks (key_event k 1) now ∧
      table_after st ks [(key_event k 1, now)] ⟨k, hk⟩ = ⟨now, 1⟩ := by
  have he := press_effect st ks k hk now
  have hf : forwards st ks (key_event k 1) now := by
    unfold forwards
    rw [he]
    rcases h with h | h
    · simp [h]
    · by_cases hg : time_diff_ms st now < startup_grace_ms
      · simp [hg]
      · simp [hg, h]
  exact ⟨hf, forwarded_press_cell st ks k hk now hf⟩

/-- An event other than a release of `k` keeps `is_pressed = 1` in cell `k`. -/
theorem held_step (st : timespec) (ks : KeyTable) (ev : input_event) (now : timespec)
    (k : Nat) (hk : k < MAX_KEYS) (hnr : ¬ (addresses k ev ∧ ev.value = 0))
    (hheld : (ks ⟨k, hk⟩).is_pressed = 1) :
    (table_after st ks [(ev, now)] ⟨k, hk⟩).is_pressed = 1 := by
  by_cases ha : addresses k ev
  · obtain ⟨ht, hc⟩ := ha
    have hc2 : ev.code < MAX_KEYS := hc ▸ hk
    have hv : ev.value ≠ 0 := fun hv => hnr ⟨⟨ht, hc⟩, hv⟩
    have he := loop_body_key st ks ev now ht hc2
    rw [table_after_single st ks ev now _ he]
    subst hc
    split_ifs
    all_goals simp [hheld]
  · obtain ⟨r, hr, _⟩ := loop_body_written st ks ev now
    rw [table_after_single st ks ev now r hr, loop_body_frame st ks ev now r hr k hk ha]
    exact hheld

/-- A sequence without a release of `k` keeps `is_pressed = 1` in cell `k`. -/
theorem held_run (st : timespec) (k : Nat) (hk : k < MAX_KEYS)
    (evs : List (input_event × timespec))
    (hnr : ∀ e ∈ evs, ¬ (addresses k e.1 ∧ e.1.value = 0)) :
    ∀ ks : KeyTable, (ks ⟨k, hk⟩).is_pressed = 1 →
      (table_after st ks evs ⟨k, hk⟩).is_pressed = 1 := by
  induction evs with
  | nil => intro ks h; exact h
  | cons e rest ih =>
    intro ks h
    have h1 := held_step st ks e.1 e.2 k hk (hnr e (List.mem_cons_self _ _)) h
    have h2 := ih (fun e he => hnr e (List.mem_cons_of_mem _ he)) _ h1
    rw [← table_after_append] at h2
    exact h2

/-- C4 (P1, no false suppression while held): once a press of a tracked key `k`
has been forwarded, then after any further events among which there is no
release of `k` (presses and autorepeats of `k`, events of other keys, non-key
events, at any times), a press of `k` at any time `t` is forwarded, and after
it the cell of `k` holds `last_press = t` and `is_pressed = 1`. -/
theorem C4_held_press_forwarded (startup_time : timespec) (ks : KeyTable) (k : Nat)
    (t0 t : timespec) (mid : List (input_event × timespec)) (hk : k < MAX_KEYS)
    (hfwd : forwards startup_time ks (key_event k 1) t0)
    (hmid : ∀ e ∈ mid, ¬ (addresses k e.1 ∧ e.1.value = 0)) :
    forwards startup_time (table_after startup_time ks ([(key_event k 1, t0)] ++ mid))
      (key_event k 1) t ∧
    table_after startup_time ks ([(key_event k 1, t0)] ++ mid ++ [(key_event k 1, t)])
      ⟨k, hk⟩ = ⟨t, 1⟩ := by
  have hheld : (table_after startup_time ks ([(key_event k 1, t0)] ++ mid) ⟨k, hk⟩).is_pressed
      = 1 := by
    rw [table_after_append]
    apply held_run startup_time k hk mid hmid
    rw [forwarded_press_cell startup_time ks k hk t0 hfwd]
  have hnb : ¬ bounce_cond
      (table_after startup_time ks ([(key_event k 1, t0)] ++ mid) ⟨k, hk⟩) t := by
    intro hb
    have := hb.2.2.2
    rw [hheld] at this
    exact absurd this (by decide)
  have h := press_forwarded_of startup_time _ k hk t (Or.inr hnb)
  rw [table_after_append startup_time ([(key_event k 1, t0)] ++ mid)]
  exact h

/-- Witness of C4: key 30 pressed at 5.000 s, autorepeated, key 31 pressed and
released, and key 30 pressed again 20 ms after its first press. -/
theorem C4_held_press_forwarded_witness :
    forwards ⟨0, 0⟩ (table_after ⟨0, 0⟩ zero_table ([(key_event 30 1, ⟨5, 0⟩)] ++
        [(key_event 30 2, ⟨5, 5000000⟩), (key_event 31 1, ⟨5, 10000000⟩),
          (key_event 31 0, ⟨5, 15000000⟩)]))
      (key_event 30 1) ⟨5, 20000000⟩ ∧
    table_after ⟨0, 0⟩ zero_table ([(key_event 30 1, ⟨5, 0⟩)] ++
        [(key_event 30 2, ⟨5, 5000000⟩), (key_event 31 1, ⟨5, 10000000⟩),
          (key_event 31 0, ⟨5, 15000000⟩)] ++ [(key_event 30 1, ⟨5, 20000000⟩)])
      ⟨30, by decide⟩ = ⟨⟨5, 20000000⟩, 1⟩ :=
  C4_held_press_forwarded ⟨0, 0⟩ zero_table 30 ⟨5, 0⟩ ⟨5, 20000000⟩
    [(key_event 30 2, ⟨5, 5000000⟩), (key_event 31 1, ⟨5, 10000000⟩),
      (key_event 31 0, ⟨5, 15000000⟩)] (by decide) (by decide) (by decide)

/-- C5 (P3, window boundary): a press of a tracked key whose distance
`time_diff_ms(last_press, now)` from the stored `last_press` is at least
`DEBOUNCE_TIME_MS` (exactly 90 ms included) is forwarded, in every table and for
every startup time, and leaves the cell of the key at `last_press = now`,
`is_pressed = 1`. -/
theorem C5_window_boundary (startup_time : timespec) (ks : KeyTable) (k : Nat)
    (now : timespec) (hk : k < MAX_KEYS)
    (hwin : DEBOUNCE_TIME_MS ≤ time_diff_ms (ks ⟨k, hk⟩).last_press now) :
    forwards startup_time ks (key_event k 1) now ∧
      table_after startup_time ks [(key_event k 1, now)] ⟨k, hk⟩ = ⟨now, 1⟩ :=
  press_forwarded_of startup_time ks k hk now
    (Or.inr (fun hb => absurd hb.2.2.1 (not_lt.mpr hwin)))

/-- Witness of C5: key 30 was pressed at 5.000 s and released; it is pressed
again exactly 90 ms later. -/
theorem C5_window_boundary_witness :
    forwards ⟨0, 0⟩ (Function.update zero_table ⟨30, by decide⟩ ⟨⟨5, 0⟩, 0⟩)
      (key_event 30 1) ⟨5, 90000000⟩ ∧
    table_after ⟨0, 0⟩ (Function.update zero_table ⟨30, by decide⟩ ⟨⟨5, 0⟩, 0⟩)
      [(key_event 30 1, ⟨5, 90000000⟩)] ⟨30, by decide⟩ = ⟨⟨5, 90000000⟩, 1⟩ :=
  C5_window_boundary ⟨0, 0⟩ (Function.update zero_table ⟨30, by decide⟩ ⟨⟨5, 0⟩, 0⟩) 30
    ⟨5, 90000000⟩ (by decide) (by decide)

/-- Inside the grace period every event is forwarded. -/
theorem grace_step (st : timespec) (ks : KeyTable) (ev : input_event) (now : timespec)
    (hg : time_diff_ms st now < startup_grace_ms) : forwards st ks ev now := by
  unfold forwards
  by_cases h : ev.type = EV_KEY ∧ ev.code < MAX_KEYS
  · rw [loop_body_key st ks ev now h.1 h.2]
    split_ifs
    all_goals rfl
  · rw [loop_body_other st ks ev now h]
    rfl

/-- The loop writes every event of a sequence processed inside the grace period. -/
theorem grace_run (st : timespec) (evs : List (input_event × timespec))
    (hg : ∀ e ∈ evs, time_diff_ms st e.2 < startup_grace_ms) :
    ∀ ks : KeyTable, ∃ ks1, run st ks evs = some (ks1, evs.map Prod.fst) := by
  induction evs with
  | nil => intro ks; exact ⟨ks, rfl⟩
  | cons e rest ih =>
    intro ks
    obtain ⟨ev, now⟩ := e
    obtain ⟨r, hr, _⟩ := loop_body_written st ks ev now
    have hf := grace_step st ks ev now (hg (ev, now) (List.mem_cons_self _ _))
    unfold forwards at hf
    rw [hr] at hf
    have hw : r.written = some ev := Option.some.inj hf
    obtain ⟨ks1, h1⟩ := ih (fun e he => hg e (List.mem_cons_of_mem _ he)) r.key_states
    refine ⟨ks1, ?_⟩
    rw [run_cons st ks ev now rest r _ hr h1, hw]
    rfl

/-- C6 (P4, grace period absolute bypass): the grace flag of an event is exactly
`time_diff_ms(startup_time, now) < 1000`; and for every sequence of events all
processed while that holds, the loop returns having written every event of the
sequence, in order, whatever the table at the start and whatever the spacing of
the presses, and each press of a tracked key in the sequence leaves the cell of
its key at `last_press = now`, `is_pressed = 1`. -/
theorem C6_grace_period_bypass (startup_time : timespec) (ks : KeyTable)
    (evs : List (input_event × timespec))
    (hgrace : ∀ e ∈ evs, time_diff_ms startup_time e.2 < 1000) :
    (∀ now, in_grace_period startup_time now = true ↔ time_diff_ms startup_time now < 1000) ∧
    (∃ ks1, run startup_time ks evs = some (ks1, evs.map Prod.fst)) ∧
    (∀ pre post k now, evs = pre ++ (key_event k 1, now) :: post → ∀ hk : k < MAX_KEYS,
      forwards startup_time (table_after startup_time ks pre) (key_event k 1) now ∧
      table_after startup_time ks (pre ++ [(key_event k 1, now)]) ⟨k, hk⟩ = ⟨now, 1⟩) := by
  refine ⟨?_, grace_run startup_time evs hgrace ks, ?_⟩
  · intro now
    simp [in_grace_period, startup_grace_ms]
  · intro pre post k now hsplit hk
    have hg : time_diff_ms startup_time now < startup_grace_ms :=
      hgrace (key_event k 1, now) (by rw [hsplit]; simp)
    rw [table_after_append]
    exact press_forwarded_of startup_time _ k hk now (Or.inl hg)

/-- Witness of C6: the bounce pattern press, release, press of key 30 within
20 ms, all inside the first second after startup at 5 s. -/
theorem C6_grace_period_bypass_witness :
    (∀ now, in_grace_period ⟨5, 0⟩ now = true ↔ time_diff_ms ⟨5, 0⟩ now < 1000) ∧
    (∃ ks1, run ⟨5, 0⟩ zero_table [(key_event 30 1, ⟨5, 100000000⟩),
        (key_event 30 0, ⟨5, 110000000⟩), (key_event 30 1, ⟨5, 120000000⟩)] =
      some (ks1, [(key_event 30 1, (⟨5, 100000000⟩ : timespec)),
        (key_event 30 0, ⟨5, 110000000⟩), (key_event 30 1, ⟨5, 120000000⟩)].map Prod.fst)) ∧
    (∀ pre post k now, [(key_event 30 1, (⟨5, 100000000⟩ : timespec)),
        (key_event 30 0, ⟨5, 110000000⟩), (key_event 30 1, ⟨5, 120000000⟩)] =
        pre ++ (key_event k 1, now) :: post → ∀ hk : k < MAX_KEYS,
      forwards ⟨5, 0⟩ (table_after ⟨5, 0⟩ zero_table pre) (key_event k 1) now ∧
      table_after ⟨5, 0⟩ zero_table (pre ++ [(key_event k 1, now)]) ⟨k, hk⟩ = ⟨now, 1⟩) :=
  C6_grace_period_bypass ⟨5, 0⟩ zero_table [(key_event 30 1, ⟨5, 100000000⟩),
    (key_event 30 0, ⟨5, 110000000⟩), (key_event 30 1, ⟨5, 120000000⟩)] (by decide)

/-- C7 (P5, release pass-through): a release (value 0) of a tracked key is
forwarded in every table, at every time and for every startup time; after it
`is_pressed` of the key is 0 and `last_press` of the key is what it was. -/
theorem C7_release_pass_through (startup_time : timespec) (ks : KeyTable) (k : Nat)
    (now : timespec) (hk : k < MAX_KEYS) :
    forwards startup_time ks (key_event k 0) now ∧
    (table_after startup_time ks [(key_event k 0, now)] ⟨k, hk⟩).is_pressed = 0 ∧
    (table_after startup_time ks [(key_event k 0, now)] ⟨k, hk⟩).last_press =
      (ks ⟨k, hk⟩).last_press := by
  obtain ⟨hf, hc⟩ := release_effect startup_time ks k hk now
  exact ⟨hf, by rw [hc], by rw [hc]⟩

/-- Witness of C7: key 30, held since 5.000 s, is released 20 ms later, well
inside the debounce window. -/
theorem C7_release_pass_through_witness :
    forwards ⟨0, 0⟩ (Function.update zero_table ⟨30, by decide⟩ ⟨⟨5, 0⟩, 1⟩)
      (key_event 30 0) ⟨5, 20000000⟩ ∧
    (table_after ⟨0, 0⟩ (Function.update zero_table ⟨30, by decide⟩ ⟨⟨5, 0⟩, 1⟩)
      [(key_event 30 0, ⟨5, 20000000⟩)] ⟨30, by decide⟩).is_pressed = 0 ∧
    (table_after ⟨0, 0⟩ (Function.update zero_table ⟨30, by decide⟩ ⟨⟨5, 0⟩, 1⟩)
      [(key_event 30 0, ⟨5, 20000000⟩)] ⟨30, by decide⟩).last_press =
      ((Function.update zero_table ⟨30, by decide⟩ ⟨⟨5, 0⟩, 1⟩ : KeyTable)
        ⟨30, by decide⟩).last_press :=
  C7_release_pass_through ⟨0, 0⟩ (Function.update zero_table ⟨30, by decide⟩ ⟨⟨5, 0⟩, 1⟩) 30
    ⟨5, 20000000⟩ (by decide)

/-- C8 (P6, non-key pass-through): for an event whose type is not `EV_KEY`,
whatever its code and value, the table and the clock, the loop body returns
having written that very event (same type, code and value) and with the table
equal to the one before. -/
theorem C8_non_key_pass_through (startup_time : timespec) (ks : KeyTable)
    (ev : input_event) (now : timespec) (htype : ev.type ≠ EV_KEY) :
    loop_body startup_time ks ev now = some ⟨ks, some ev⟩ :=
  loop_body_other startup_time ks ev now (fun h => htype h.1)

/-- Witness of C8: a synchronisation event (type 0) and the table in which
key 30 was pressed at 5.000 s. -/
theorem C8_non_key_pass_through_witness :
    loop_body ⟨0, 0⟩ (Function.update zero_table ⟨30, by decide⟩ ⟨⟨5, 0⟩, 0⟩) ⟨0, 30, 1⟩
        ⟨5, 20000000⟩ =
      some ⟨Function.update zero_table ⟨30, by decide⟩ ⟨⟨5, 0⟩, 0⟩, some ⟨0, 30, 1⟩⟩ :=
  C8_non_key_pass_through ⟨0, 0⟩ (Function.update zero_table ⟨30, by decide⟩ ⟨⟨5, 0⟩, 0⟩)
    ⟨0, 30, 1⟩ ⟨5, 20000000⟩ (by decide)

/-- C9 (P7, in-bounds indexing and out-of-range fail-open): the loop body and
the loop over any sequence never return `none`, that is, no read or write of
`key_states` is made at an index outside `[0, MAX_KEYS)`; and a key event with
code at or above `MAX_KEYS` is written unchanged, whatever its value, the clock
and the table, with the table equal to the one before, so that the outcome does
not depend on any cell of the table. -/
theorem C9_in_bounds_and_fail_open (startup_time : timespec) (ks : KeyTable)
    (ev : input_event) (now : timespec) (evs : List (input_event × timespec)) :
    (loop_body startup_time ks ev now).isSome = true ∧
    (run startup_time ks evs).isSome = true ∧
    (∀ i, MAX_KEYS ≤ i → key_at ks i = none ∧ ∀ s, key_store ks i s = none) ∧
    (ev.type = EV_KEY → MAX_KEYS ≤ ev.code →
      ∀ ks2 : KeyTable, loop_body startup_time ks2 ev now = some ⟨ks2, some ev⟩) := by
  refine ⟨?_, ?_, ?_, ?_⟩
  · obtain ⟨r, hr, _⟩ := loop_body_written startup_time ks ev now
    rw [hr]
    rfl
  · obtain ⟨p, hp⟩ := run_total startup_time evs ks
    rw [hp]
    rfl
  · intro i hi
    exact ⟨key_at_ge ks hi, fun s => by simp [key_store, Nat.not_lt.mpr hi]⟩
  · intro _ hc ks2
    exact loop_body_other startup_time ks2 ev now (fun h => absurd h.2 (Nat.not_lt.mpr hc))

/-- Witness of C9: a press of key code 300, above `MAX_KEYS`, outside the grace
period. -/
theorem C9_in_bounds_and_fail_open_witness :
    ∀ ks2 : KeyTable,
      loop_body ⟨0, 0⟩ ks2 ⟨EV_KEY, 300, 1⟩ ⟨5, 0⟩ = some ⟨ks2, some ⟨EV_KEY, 300, 1⟩⟩ :=
  (C9_in_bounds_and_fail_open ⟨0, 0⟩ zero_table ⟨EV_KEY, 300, 1⟩ ⟨5, 0⟩ []).2.2.2 rfl
    (by decide)

/-- An event other than a press of `k` keeps `last_press` of cell `k`. -/
theorem no_press_step (st : timespec) (ks : KeyTable) (ev : input_event) (now : timespec)
    (k : Nat) (hk : k < MAX_KEYS) (hnp : ¬ (addresses k ev ∧ ev.value = 1)) :
    (table_after st ks [(ev, now)] ⟨k, hk⟩).last_press = (ks ⟨k, hk⟩).last_press := by
  by_cases ha : addresses k ev
  · obtain ⟨ht, hc⟩ := ha
    have hc2 : ev.code < MAX_KEYS := hc ▸ hk
    have hv : ev.value ≠ 1 := fun hv => hnp ⟨⟨ht, hc⟩, hv⟩
    have he := loop_body_key st ks ev now ht hc2
    rw [table_after_single st ks ev now _ he, if_neg hv]
    subst hc
    split_ifs
    all_goals simp
  · obtain ⟨r, hr, _⟩ := loop_body_written st ks ev now
    rw [table_after_single st ks ev now r hr, loop_body_frame st ks ev now r hr k hk ha]

/-- A sequence without a press of `k` keeps `last_press` of cell `k`. -/
theorem no_press_run (st : timespec) (k : Nat) (hk : k < MAX_KEYS)
    (evs : List (input_event × timespec))
    (hnp : ∀ e ∈ evs, ¬ (addresses k e.1 ∧ e.1.value = 1)) :
    ∀ ks : KeyTable,
      (table_after st ks evs ⟨k, hk⟩).last_press = (ks ⟨k, hk⟩).last_press := by
  induction evs with
  | nil => intro ks; rfl
  | cons e rest ih =>
    intro ks
    have h1 := no_press_step st ks e.1 e.2 k hk (hnp e (List.mem_cons_self _ _))
    have h2 := ih (fun e he => hnp e (List.mem_cons_of_mem _ he))
      (table_after st ks [(e.1, e.2)])
    rw [← table_after_append] at h2
    exact h2.trans h1

/-- C10 (the first press is never suppressed): starting from the zero table,
after any events among which there is no press of the tracked key `k`
(releases and autorepeats of `k`, events of other keys, non-key events), a
press of `k` is forwarded, inside or outside the grace period, and after it the
cell of `k` holds `last_press = now` and `is_pressed = 1`. -/
theorem C10_first_press_forwarded (startup_time : timespec) (k : Nat) (now : timespec)
    (pre : List (input_event × timespec)) (hk : k < MAX_KEYS)
    (hpre : ∀ e ∈ pre, ¬ (addresses k e.1 ∧ e.1.value = 1)) :
    forwards startup_time (table_after startup_time zero_table pre) (key_event k 1) now ∧
    table_after startup_time zero_table (pre ++ [(key_event k 1, now)]) ⟨k, hk⟩ =
      ⟨now, 1⟩ := by
  have hlp := no_press_run startup_time k hk pre hpre zero_table
  have hnb : ¬ bounce_cond (table_after startup_time zero_table pre ⟨k, hk⟩) now := by
    intro hb
    apply hb.1
    rw [hlp]
    rfl
  rw [table_after_append]
  exact press_forwarded_of startup_time _ k hk now (Or.inr hnb)

/-- Witness of C10: key 30 is released and autorepeated and key 31 is pressed
before the first press of key 30, 20 ms later and outside the grace period. -/
theorem C10_first_press_forwarded_witness :
    forwards ⟨0, 0⟩ (table_after ⟨0, 0⟩ zero_table [(key_event 30 0, ⟨5, 0⟩),
        (key_event 30 2, ⟨5, 5000000⟩), (key_event 31 1, ⟨5, 10000000⟩)])
      (key_event 30 1) ⟨5, 20000000⟩ ∧
    table_after ⟨0, 0⟩ zero_table ([(key_event 30 0, ⟨5, 0⟩),
        (key_event 30 2, ⟨5, 5000000⟩), (key_event 31 1, ⟨5, 10000000⟩)] ++
        [(key_event 30 1, ⟨5, 20000000⟩)]) ⟨30, by decide⟩ = ⟨⟨5, 20000000⟩, 1⟩ :=
  C10_first_press_forwarded ⟨0, 0⟩ 30 ⟨5, 20000000⟩ [(key_event 30 0, ⟨5, 0⟩),
    (key_event 30 2, ⟨5, 5000000⟩), (key_event 31 1, ⟨5, 10000000⟩)] (by decide) (by decide)

/-- A press outside the grace period that meets the suppression condition is
dropped and leaves the whole table as it was. -/
theorem press_dropped_of (st : timespec) (ks : KeyTable) (k : Nat) (hk : k < MAX_KEYS)
    (now : timespec) (hg : ¬ time_diff_ms st now < startup_grace_ms)
    (hb : bounce_cond (ks ⟨k, hk⟩) now) :
    drops st ks (key_event k 1) now ∧ table_after st ks [(key_event k 1, now)] = ks := by
  have he : loop_body st ks (key_event k 1) now = some ⟨ks, none⟩ := by
    rw [press_effect st ks k hk now, if_neg hg, if_pos hb]
  refine ⟨?_, ?_⟩
  · unfold drops
    rw [he]
    rfl
  · rw [table_after_single st ks _ now _ he]

/-- The example scenario with the first press at a reading off the zero second:
from the zero table, key 30 is pressed at `t0`, released at `t1`, pressed at
`t2` and `t3` and released at `t4`, where `t0.tv_sec != 0`, the press at `t2` is
processed outside the grace period, and the presses at `t2` and `t3` are 70 ms
and 200 ms after `t0` by `time_diff_ms`.  The five events are decided forward,
forward, drop, forward, forward, and `is_pressed` of key 30 after each of them
is 1, 0, 0, 1, 0. -/
theorem example_scenario_of_sec (startup_time t0 t1 t2 t3 t4 : timespec)
    (hsec : t0.tv_sec ≠ 0)
    (hg2 : ¬ time_diff_ms startup_time t2 < startup_grace_ms)
    (h2 : time_diff_ms t0 t2 = 70) (h3 : time_diff_ms t0 t3 = 200) :
    forwards startup_time zero_table (key_event 30 1) t0 ∧
    (table_after startup_time zero_table [(key_event 30 1, t0)]
      ⟨30, by decide⟩).is_pressed = 1 ∧
    forwards startup_time (table_after startup_time zero_table [(key_event 30 1, t0)])
      (key_event 30 0) t1 ∧
    (table_after startup_time zero_table [(key_event 30 1, t0), (key_event 30 0, t1)]
      ⟨30, by decide⟩).is_pressed = 0 ∧
    drops startup_time
      (table_after startup_time zero_table [(key_event 30 1, t0), (key_event 30 0, t1)])
      (key_event 30 1) t2 ∧
    (table_after startup_time zero_table
      [(key_event 30 1, t0), (key_event 30 0, t1), (key_event 30 1, t2)]
      ⟨30, by decide⟩).is_pressed = 0 ∧
    forwards startup_time
      (table_after startup_time zero_table
        [(key_event 30 1, t0), (key_event 30 0, t1), (key_event 30 1, t2)])
      (key_event 30 1) t3 ∧
    (table_after startup_time zero_table
      [(key_event 30 1, t0), (key_event 30 0, t1), (key_event 30 1, t2),
        (key_event 30 1, t3)] ⟨30, by decide⟩).is_pressed = 1 ∧
    forwards startup_time
      (table_after startup_time zero_table
        [(key_event 30 1, t0), (key_event 30 0, t1), (key_event 30 1, t2),
          (key_event 30 1, t3)])
      (key_event 30 0) t4 ∧
    (table_after startup_time zero_table
      [(key_event 30 1, t0), (key_event 30 0, t1), (key_event 30 1, t2),
        (key_event 30 1, t3), (key_event 30 0, t4)] ⟨30, by decide⟩).is_pressed = 0 := by
  have hk : 30 < MAX_KEYS := by decide
  -- first press: the stored timestamp is the zero of the initial table
  have p0 := press_forwarded_of startup_time zero_table 30 hk t0
    (Or.inr (fun hb => hb.1 rfl))
  -- release
  have e1 : table_after startup_time zero_table [(key_event 30 1, t0), (key_event 30 0, t1)]
      = table_after startup_time
          (table_after startup_time zero_table [(key_event 30 1, t0)])
          [(key_event 30 0, t1)] :=
    table_after_append startup_time [(key_event 30 1, t0)] [(key_event 30 0, t1)] zero_table
  have r1 := release_effect startup_time
    (table_after startup_time zero_table [(key_event 30 1, t0)]) 30 hk t1
  have c1 : table_after startup_time zero_table
      [(key_event 30 1, t0), (key_event 30 0, t1)] ⟨30, hk⟩ = ⟨t0, 0⟩ := by
    rw [e1, r1.2, p0.2]
  -- second press: 70 ms after the first, key released
  have hb2 : bounce_cond (table_after startup_time zero_table
      [(key_event 30 1, t0), (key_event 30 0, t1)] ⟨30, hk⟩) t2 := by
    rw [c1]
    exact ⟨hsec, by rw [h2]; decide, by rw [h2]; decide, rfl⟩
  have d2 := press_dropped_of startup_time _ 30 hk t2 hg2 hb2
  have e2 : table_after startup_time zero_table
      [(key_event 30 1, t0), (key_event 30 0, t1), (key_event 30 1, t2)]
      = table_after startup_time zero_table [(key_event 30 1, t0), (key_event 30 0, t1)] := by
    rw [← d2.2]
    exact table_after_append startup_time [(key_event 30 1, t0), (key_event 30 0, t1)]
      [(key_event 30 1, t2)] zero_table
  -- third press: 200 ms after the first
  have hnb3 : ¬ bounce_cond (table_after startup_time zero_table
      [(key_event 30 1, t0), (key_event 30 0, t1), (key_event 30 1, t2)] ⟨30, hk⟩) t3 := by
    rw [e2, c1]
    intro hb
    have := hb.2.2.1
    rw [h3] at this
    exact absurd this (by decide)
  have p3 := press_forwarded_of startup_time _ 30 hk t3 (Or.inr hnb3)
  have e3 : table_after startup_time zero_table
      [(key_event 30 1, t0), (key_event 30 0, t1), (key_event 30 1, t2), (key_event 30 1, t3)]
      = table_after startup_time
          (table_after startup_time zero_table
            [(key_event 30 1, t0), (key_event 30 0, t1), (key_event 30 1, t2)])
          [(key_event 30 1, t3)] :=
    table_after_append startup_time
      [(key_event 30 1, t0), (key_event 30 0, t1), (key_event 30 1, t2)]
      [(key_event 30 1, t3)] zero_table
  -- last release
  have e4 : table_after startup_time zero_table
      [(key_event 30 1, t0), (key_event 30 0, t1), (key_event 30 1, t2), (key_event 30 1, t3),
        (key_event 30 0, t4)]
      = table_after startup_time
          (table_after startup_time zero_table
            [(key_event 30 1, t0), (key_event 30 0, t1), (key_event 30 1, t2),
              (key_event 30 1, t3)])
          [(key_event 30 0, t4)] :=
    table_after_append startup_time
      [(key_event 30 1, t0), (key_event 30 0, t1), (key_event 30 1, t2), (key_event 30 1, t3)]
      [(key_event 30 0, t4)] zero_table
  have r4 := release_effect startup_time
    (table_after startup_time zero_table
      [(key_event 30 1, t0), (key_event 30 0, t1), (key_event 30 1, t2),
        (key_event 30 1, t3)]) 30 hk t4
  refine ⟨p0.1, by rw [p0.2], r1.1, by rw [c1], d2.1, by rw [e2, c1], p3.1, ?_, r4.1, ?_⟩
  · rw [e3, p3.2]
  · rw [e4, r4.2]

/-- A key event is determined by its code and its value. -/
theorem eq_key_event (k : Nat) (ev : input_event) (ha : addresses k ev) :
    ev = key_event k ev.value := by
  obtain ⟨t, c, v⟩ := ev
  obtain ⟨ht, hc⟩ := ha
  simp only at ht hc
  subst ht hc
  rfl

/-- A press that is not forwarded leaves the whole table as it was. -/
theorem unforwarded_press_table (st : timespec) (ks : KeyTable) (k : Nat) (hk : k < MAX_KEYS)
    (now : timespec) (hnf : ¬ forwards st ks (key_event k 1) now) :
    table_after st ks [(key_event k 1, now)] = ks := by
  by_cases h : time_diff_ms st now < startup_grace_ms ∨ ¬ bounce_cond (ks ⟨k, hk⟩) now
  · exact absurd (press_forwarded_of st ks k hk now h).1 hnf
  · have hg : ¬ time_diff_ms st now < startup_grace_ms := fun hg => h (Or.inl hg)
    have hb : bounce_cond (ks ⟨k, hk⟩) now := by
      by_contra hb
      exact h (Or.inr hb)
    exact (press_dropped_of st ks k hk now hg hb).2

/-- A key event with a value other than 0 and 1 leaves the whole table as it was. -/
theorem other_value_table (st : timespec) (ks : KeyTable) (k : Nat) (hk : k < MAX_KEYS)
    (v : Int) (now : timespec) (h0 : v ≠ 0) (h1 : v ≠ 1) :
    loop_body st ks (key_event k v) now = some ⟨ks, some (key_event k v)⟩ ∧
      table_after st ks [(key_event k v, now)] = ks := by
  have he : loop_body st ks (key_event k v) now = some ⟨ks, some (key_event k v)⟩ := by
    rw [key_event_effect st ks k hk v now, if_neg h1, if_neg h0]
  exact ⟨he, by rw [table_after_single st ks _ now _ he]⟩

/-- The cell of key `k` after one event: a release of `k` clears `is_pressed`
and keeps `last_press`, a forwarded press of `k` stores `(now, 1)`, and every
other event leaves the cell as it was. -/
theorem cell_step (st : timespec) (ks : KeyTable) (ev : input_event) (now : timespec)
    (k : Nat) (hk : k < MAX_KEYS) :
    (addresses k ev ∧ ev.value = 0 ∧
      table_after st ks [(ev, now)] ⟨k, hk⟩ = ⟨(ks ⟨k, hk⟩).last_press, 0⟩) ∨
    (addresses k ev ∧ ev.value = 1 ∧ forwards st ks ev now ∧
      table_after st ks [(ev, now)] ⟨k, hk⟩ = ⟨now, 1⟩) ∨
    (¬ (addresses k ev ∧ ev.value = 0) ∧
      ¬ (addresses k ev ∧ ev.value = 1 ∧ forwards st ks ev now) ∧
      table_after st ks [(ev, now)] ⟨k, hk⟩ = ks ⟨k, hk⟩) := by
  by_cases ha : addresses k ev
  · obtain ⟨t, c, v⟩ := ev
    have ha2 := ha
    obtain ⟨ht, hc⟩ := ha2
    simp only at ht hc
    subst ht hc
    by_cases h0 : v = 0
    · subst h0
      exact Or.inl ⟨ha, rfl, (release_effect st ks c hk now).2⟩
    · by_cases h1 : v = 1
      · subst h1
        by_cases hf : forwards st ks (key_event c 1) now
        · exact Or.inr (Or.inl ⟨ha, rfl, hf, forwarded_press_cell st ks c hk now hf⟩)
        · refine Or.inr (Or.inr ⟨fun h => h0 h.2, fun h => hf h.2.2, ?_⟩)
          have := unforwarded_press_table st ks c hk now hf
          exact congrFun this ⟨c, hk⟩
      · refine Or.inr (Or.inr ⟨fun h => h0 h.2, fun h => h1 h.2.1, ?_⟩)
        have := (other_value_table st ks c hk v now h0 h1).2
        exact congrFun this ⟨c, hk⟩
  · obtain ⟨r, hr, _⟩ := loop_body_written st ks ev now
    refine Or.inr (Or.inr ⟨fun h => ha h.1, fun h => ha h.1, ?_⟩)
    rw [table_after_single st ks ev now r hr, loop_body_frame st ks ev now r hr k hk ha]

/-- C12 (the `is_pressed` invariant): after any sequence of events processed
from the zero table, `is_pressed` of a tracked key `k` is 0 or 1, and it is 1
exactly when the sequence contains a forwarded press of `k` after which no
release of `k` occurs in the sequence. -/
theorem C12_is_pressed_invariant (startup_time : timespec)
    (evs : List (input_event × timespec)) (k : Nat) (hk : k < MAX_KEYS) :
    ((table_after startup_time zero_table evs ⟨k, hk⟩).is_pressed = 1 ↔
      ∃ pre e post, evs = pre ++ e :: post ∧ addresses k e.1 ∧ e.1.value = 1 ∧
        forwards startup_time (table_after startup_time zero_table pre) e.1 e.2 ∧
        ∀ x ∈ post, ¬ (addresses k x.1 ∧ x.1.value = 0)) ∧
    ((table_after startup_time zero_table evs ⟨k, hk⟩).is_pressed = 0 ∨
      (table_after startup_time zero_table evs ⟨k, hk⟩).is_pressed = 1) := by
  have hforw : ((table_after startup_time zero_table evs ⟨k, hk⟩).is_pressed = 1 →
      ∃ pre e post, evs = pre ++ e :: post ∧ addresses k e.1 ∧ e.1.value = 1 ∧
        forwards startup_time (table_after startup_time zero_table pre) e.1 e.2 ∧
        ∀ x ∈ post, ¬ (addresses k x.1 ∧ x.1.value = 0)) ∧
    ((table_after startup_time zero_table evs ⟨k, hk⟩).is_pressed = 0 ∨
      (table_after startup_time zero_table evs ⟨k, hk⟩).is_pressed = 1) := by
    induction evs using List.reverseRecOn with
    | nil =>
      exact ⟨fun h => absurd (show (0 : Int) = 1 from h) (show ¬ (0 : Int) = 1 by decide), Or.inl rfl⟩
    | append_singleton l a ih =>
      obtain ⟨ev, now⟩ := a
      rw [table_after_append]
      rcases cell_step startup_time (table_after startup_time zero_table l) ev now k hk with
        ⟨_, _, hc⟩ | ⟨ha, hv, hf, hc⟩ | ⟨hnr, _, hc⟩
      · rw [hc]
        exact ⟨fun h => absurd (show (0 : Int) = 1 from h) (show ¬ (0 : Int) = 1 by decide), Or.inl rfl⟩
      · rw [hc]
        exact ⟨fun _ => ⟨l, (ev, now), [], rfl, ha, hv, hf, by simp⟩, Or.inr rfl⟩
      · rw [hc]
        refine ⟨fun h => ?_, ih.2⟩
        obtain ⟨pre, e, post, hsplit, ha, hv, hf, hpost⟩ := ih.1 h
        refine ⟨pre, e, post ++ [(ev, now)], by rw [hsplit]; simp, ha, hv, hf, ?_⟩
        intro x hx
        rcases List.mem_append.mp hx with hx | hx
        · exact hpost x hx
        · rw [List.mem_singleton.mp hx]
          exact hnr
  have hback : (∃ pre e post, evs = pre ++ e :: post ∧ addresses k e.1 ∧ e.1.value = 1 ∧
        forwards startup_time (table_after startup_time zero_table pre) e.1 e.2 ∧
        ∀ x ∈ post, ¬ (addresses k x.1 ∧ x.1.value = 0)) →
      (table_after startup_time zero_table evs ⟨k, hk⟩).is_pressed = 1 := by
    rintro ⟨pre, e, post, hsplit, ha, hv, hf, hpost⟩
    obtain ⟨ev, now⟩ := e
    have hev : ev = key_event k 1 := by
      have := eq_key_event k ev ha
      rw [this]
      simp only at hv
      rw [hv]
    subst hev
    have hsplit2 : evs = pre ++ [(key_event k 1, now)] ++ post := by
      rw [hsplit]
      simp
    rw [hsplit2, table_after_append, table_after_append]
    apply held_run startup_time k hk post hpost
    rw [forwarded_press_cell startup_time _ k hk now hf]
  exact ⟨⟨hforw.1, hback⟩, hforw.2⟩

/-- Witness of C12: key 30 is pressed, released, pressed again 20 ms later (a
dropped press) and pressed once more after the window. -/
theorem C12_is_pressed_invariant_witness :
    ((table_after ⟨0, 0⟩ zero_table [(key_event 30 1, ⟨5, 0⟩), (key_event 30 0, ⟨5, 50000000⟩),
        (key_event 30 1, ⟨5, 70000000⟩), (key_event 30 1, ⟨5, 200000000⟩)]
        ⟨30, by decide⟩).is_pressed = 1 ↔
      ∃ pre e post, [(key_event 30 1, (⟨5, 0⟩ : timespec)), (key_event 30 0, ⟨5, 50000000⟩),
          (key_event 30 1, ⟨5, 70000000⟩), (key_event 30 1, ⟨5, 200000000⟩)] =
          pre ++ e :: post ∧ addresses 30 e.1 ∧ e.1.value = 1 ∧
        forwards ⟨0, 0⟩ (table_after ⟨0, 0⟩ zero_table pre) e.1 e.2 ∧
        ∀ x ∈ post, ¬ (addresses 30 x.1 ∧ x.1.value = 0)) ∧
    ((table_after ⟨0, 0⟩ zero_table [(key_event 30 1, ⟨5, 0⟩), (key_event 30 0, ⟨5, 50000000⟩),
        (key_event 30 1, ⟨5, 70000000⟩), (key_event 30 1, ⟨5, 200000000⟩)]
        ⟨30, by decide⟩).is_pressed = 0 ∨
      (table_after ⟨0, 0⟩ zero_table [(key_event 30 1, ⟨5, 0⟩), (key_event 30 0, ⟨5, 50000000⟩),
        (key_event 30 1, ⟨5, 70000000⟩), (key_event 30 1, ⟨5, 200000000⟩)]
        ⟨30, by decide⟩).is_pressed = 1) :=
  C12_is_pressed_invariant ⟨0, 0⟩ [(key_event 30 1, ⟨5, 0⟩), (key_event 30 0, ⟨5, 50000000⟩),
    (key_event 30 1, ⟨5, 70000000⟩), (key_event 30 1, ⟨5, 200000000⟩)] 30 (by decide)

theorem timespec_le_refl (a : timespec) : timespec_le a a :=
  Or.inr ⟨rfl, le_refl _⟩

theorem timespec_le_trans {a b c : timespec} (hab : timespec_le a b) (hbc : timespec_le b c) :
    timespec_le a c := by
  unfold timespec_le at *
  omega

/-- From the zero table, the stored `last_press` of a key is the zero timestamp
or the clock reading of one of the events processed so far. -/
theorem last_press_origin (st : timespec) (evs : List (input_event × timespec))
    (k : Nat) (hk : k < MAX_KEYS) :
    (table_after st zero_table evs ⟨k, hk⟩).last_press = ⟨0, 0⟩ ∨
      ∃ x ∈ evs, x.2 = (table_after st zero_table evs ⟨k, hk⟩).last_press := by
  induction evs using List.reverseRecOn with
  | nil => exact Or.inl rfl
  | append_singleton l a ih =>
    obtain ⟨ev, now⟩ := a
    rw [table_after_append]
    rcases cell_step st (table_after st zero_table l) ev now k hk with
      ⟨_, _, hc⟩ | ⟨_, _, _, hc⟩ | ⟨_, _, hc⟩
    · rw [hc]
      rcases ih with h | ⟨x, hx, h⟩
      · exact Or.inl h
      · exact Or.inr ⟨x, List.mem_append_left _ hx, h⟩
    · rw [hc]
      exact Or.inr ⟨(ev, now), by simp, rfl⟩
    · rw [hc]
      rcases ih with h | ⟨x, hx, h⟩
      · exact Or.inl h
      · exact Or.inr ⟨x, List.mem_append_left _ hx, h⟩

/-- C13 (monotonicity of `last_press`): let a sequence of events, processed
from the zero table, have non-decreasing clock readings, none below the zero
timestamp.  For its last event `e` and every tracked key `k`, the stored
`last_press` of `k` after `e` is at or above the one before `e`; it differs from
the one before only when `e` is a forwarded press of `k`; and after a forwarded
press of `k` it is the clock reading of that press. -/
theorem C13_last_press_monotone (startup_time : timespec)
    (pre : List (input_event × timespec)) (e : input_event × timespec) (k : Nat)
    (hk : k < MAX_KEYS)
    (hmono : List.Chain' (fun x y : input_event × timespec => timespec_le x.2 y.2)
      (pre ++ [e]))
    (hzero : ∀ x ∈ pre ++ [e], timespec_le ⟨0, 0⟩ x.2) :
    timespec_le (table_after startup_time zero_table pre ⟨k, hk⟩).last_press
      (table_after startup_time zero_table (pre ++ [e]) ⟨k, hk⟩).last_press ∧
    ((table_after startup_time zero_table (pre ++ [e]) ⟨k, hk⟩).last_press ≠
        (table_after startup_time zero_table pre ⟨k, hk⟩).last_press →
      addresses k e.1 ∧ e.1.value = 1 ∧
        forwards startup_time (table_after startup_time zero_table pre) e.1 e.2) ∧
    (addresses k e.1 ∧ e.1.value = 1 ∧
        forwards startup_time (table_after startup_time zero_table pre) e.1 e.2 →
      (table_after startup_time zero_table (pre ++ [e]) ⟨k, hk⟩).last_press = e.2) := by
  obtain ⟨ev, now⟩ := e
  haveI : IsTrans (input_event × timespec) (fun x y => timespec_le x.2 y.2) :=
    ⟨fun _ _ _ hab hbc => timespec_le_trans hab hbc⟩
  have hpair := List.chain'_iff_pairwise.mp hmono
  have hbefore : ∀ x ∈ pre, timespec_le x.2 now := fun x hx =>
    (List.pairwise_append.mp hpair).2.2 x hx (ev, now) (by simp)
  have hnow : timespec_le ⟨0, 0⟩ now := hzero (ev, now) (by simp)
  have hold : timespec_le (table_after startup_time zero_table pre ⟨k, hk⟩).last_press now := by
    rcases last_press_origin startup_time pre k hk with h | ⟨x, hx, h⟩
    · rw [h]
      exact hnow
    · rw [← h]
      exact hbefore x hx
  rw [table_after_append]
  rcases cell_step startup_time (table_after startup_time zero_table pre) ev now k hk with
    ⟨_, hv, hc⟩ | ⟨ha, hv, hf, hc⟩ | ⟨_, hnf, hc⟩
  · rw [hc]
    refine ⟨timespec_le_refl _, fun h => absurd rfl h, fun h => ?_⟩
    have h1 : ev.value = 1 := h.2.1
    rw [hv] at h1
    exact absurd h1 (by decide)
  · rw [hc]
    exact ⟨hold, fun _ => ⟨ha, hv, hf⟩, fun _ => rfl⟩
  · rw [hc]
    exact ⟨timespec_le_refl _, fun h => absurd rfl h, fun h => absurd h hnf⟩

/-- Witness of C13: key 30 pressed at 5.000 s, released, and pressed again at
5.200 s. -/
theorem C13_last_press_monotone_witness :
    timespec_le (table_after ⟨0, 0⟩ zero_table
        [(key_event 30 1, ⟨5, 0⟩), (key_event 30 0, ⟨5, 50000000⟩)] ⟨30, by decide⟩).last_press
      (table_after ⟨0, 0⟩ zero_table
        ([(key_event 30 1, ⟨5, 0⟩), (key_event 30 0, ⟨5, 50000000⟩)] ++
          [(key_event 30 1, ⟨5, 200000000⟩)]) ⟨30, by decide⟩).last_press :=
  (C13_last_press_monotone ⟨0, 0⟩ [(key_event 30 1, ⟨5, 0⟩), (key_event 30 0, ⟨5, 50000000⟩)]
    (key_event 30 1, ⟨5, 200000000⟩) 30 (by decide) (by simp [timespec_le]) (by decide)).1

/-- C14, the two fatal paths after a successful grab.  When
`libevdev_uinput_create_from_device` fails (here with `-13`) `main` calls
`libevdev_free` and `close` and returns 1 without ever calling
`libevdev_grab(dev, LIBEVDEV_UNGRAB)`; when a read fails (here with `-19` after
one forwarded event) `main` leaves the loop and calls `libevdev_grab(dev,
LIBEVDEV_UNGRAB)`, `libevdev_uinput_destroy`, `libevdev_free` and `close`
before returning. -/
theorem C14_uinput_failure_skips_ungrab :
    main ⟨2, 3, 0, 0, -13, ⟨5, 0⟩, []⟩ =
      ([Call.open_, Call.libevdev_new_from_fd,
        Call.libevdev_grab libevdev_grab_mode.LIBEVDEV_GRAB,
        Call.libevdev_uinput_create_from_device,
        Call.libevdev_free, Call.close], some 1) ∧
    Call.libevdev_grab libevdev_grab_mode.LIBEVDEV_UNGRAB ∉
      (main ⟨2, 3, 0, 0, -13, ⟨5, 0⟩, []⟩).1 ∧
    main ⟨2, 3, 0, 0, 0, ⟨5, 0⟩,
        [⟨0, key_event 30 1, ⟨7, 0⟩⟩, ⟨-11, key_event 30 1, ⟨7, 0⟩⟩,
          ⟨-19, key_event 30 1, ⟨7, 0⟩⟩]⟩ =
      ([Call.open_, Call.libevdev_new_from_fd,
        Call.libevdev_grab libevdev_grab_mode.LIBEVDEV_GRAB,
        Call.libevdev_uinput_create_from_device,
        Call.libevdev_next_event, Call.libevdev_uinput_write_event (key_event 30 1),
        Call.libevdev_next_event, Call.usleep,
        Call.libevdev_next_event,
        Call.libevdev_grab libevdev_grab_mode.LIBEVDEV_UNGRAB,
        Call.libevdev_uinput_destroy, Call.libevdev_free, Call.close], some 0) := by
  decide

/-- C15 (zero delta is not bounce): a press of a tracked key whose distance
`time_diff_ms(last_press, now)` from the stored `last_press` is exactly 0 is
forwarded, outside the grace period as well as inside and also when
`is_pressed` is 0, and leaves the cell of the key at `last_press = now`,
`is_pressed = 1`. -/
theorem C15_zero_delta_forwarded (startup_time : timespec) (ks : KeyTable) (k : Nat)
    (now : timespec) (hk : k < MAX_KEYS)
    (hzero : time_diff_ms (ks ⟨k, hk⟩).last_press now = 0) :
    forwards startup_time ks (key_event k 1) now ∧
      table_after startup_time ks [(key_event k 1, now)] ⟨k, hk⟩ = ⟨now, 1⟩ :=
  press_forwarded_of startup_time ks k hk now
    (Or.inr (fun hb => absurd hb.2.1 (by rw [hzero]; decide)))

/-- Witness of C15: key 30 was pressed at 5.0000 s and released; it is pressed
again at 5.0009 s, in the same millisecond, outside the grace period. -/
theorem C15_zero_delta_forwarded_witness :
    ¬ time_diff_ms ⟨0, 0⟩ ⟨5, 900000⟩ < startup_grace_ms ∧
    forwards ⟨0, 0⟩ (Function.update zero_table ⟨30, by decide⟩ ⟨⟨5, 0⟩, 0⟩)
      (key_event 30 1) ⟨5, 900000⟩ ∧
    table_after ⟨0, 0⟩ (Function.update zero_table ⟨30, by decide⟩ ⟨⟨5, 0⟩, 0⟩)
      [(key_event 30 1, ⟨5, 900000⟩)] ⟨30, by decide⟩ = ⟨⟨5, 900000⟩, 1⟩ :=
  ⟨by decide,
    C15_zero_delta_forwarded ⟨0, 0⟩ (Function.update zero_table ⟨30, by decide⟩ ⟨⟨5, 0⟩, 0⟩) 30
      ⟨5, 900000⟩ (by decide) (by decide)⟩

/-- C16 (autorepeat pass-through): a key event with value 2 and a tracked code
is written unchanged, in every table, at every time and for every startup time,
and the whole table, the cell of that key included, is equal to the one before. -/
theorem C16_autorepeat_pass_through (startup_time : timespec) (ks : KeyTable) (k : Nat)
    (now : timespec) (hk : k < MAX_KEYS) :
    loop_body startup_time ks (key_event k 2) now = some ⟨ks, some (key_event k 2)⟩ :=
  (other_value_table startup_time ks k hk 2 now (by decide) (by decide)).1

/-- Witness of C16: an autorepeat of key 30, 20 ms after its press, outside the
grace period. -/
theorem C16_autorepeat_pass_through_witness :
    loop_body ⟨0, 0⟩ (Function.update zero_table ⟨30, by decide⟩ ⟨⟨5, 0⟩, 1⟩)
        (key_event 30 2) ⟨5, 20000000⟩ =
      some ⟨Function.update zero_table ⟨30, by decide⟩ ⟨⟨5, 0⟩, 1⟩, some (key_event 30 2)⟩ :=
  C16_autorepeat_pass_through ⟨0, 0⟩ (Function.update zero_table ⟨30, by decide⟩ ⟨⟨5, 0⟩, 1⟩)
    30 ⟨5, 20000000⟩ (by decide)

theorem wrap64_of_fits (x : Int) (h : fits64 x) : wrap64 x = x := by
  unfold fits64 at h
  unfold wrap64
  omega

/-- Without overflow and with non-negative nanoseconds, `to_ms` is the
millisecond value of the timestamp. -/
theorem to_ms_eq_floor_ms (t : timespec) (hn : 0 ≤ t.tv_nsec)
    (h1 : fits64 (t.tv_sec * 1000)) (h2 : fits64 (floor_ms t)) : to_ms t = floor_ms t := by
  unfold to_ms
  rw [wrap64_of_fits _ h1, Int.tdiv_eq_ediv hn (by decide)]
  exact wrap64_of_fits _ h2

/-- Without overflow, `time_diff_ms` is the difference of the millisecond values. -/
theorem time_diff_ms_eq (a b : timespec) (ha : 0 ≤ a.tv_nsec) (hb : 0 ≤ b.tv_nsec)
    (h : no_overflow a b) : time_diff_ms a b = floor_ms b - floor_ms a := by
  obtain ⟨h1, h2, h3, h4, h5⟩ := h
  unfold time_diff_ms
  simp only
  rw [to_ms_eq_floor_ms a ha h1 h2, to_ms_eq_floor_ms b hb h3 h4]
  exact wrap64_of_fits _ h5

/-- For readings of the monotonic clock in order, `time_diff_ms` is not negative. -/
theorem time_diff_ms_nonneg (a b : timespec) (ha : clock_ok a) (hb : clock_ok b)
    (hle : timespec_le a b) : 0 ≤ time_diff_ms a b := by
  unfold clock_ok floor_ms at ha hb
  have hno : no_overflow a b := by
    unfold no_overflow fits64 floor_ms
    omega
  rw [time_diff_ms_eq a b ha.2.1 hb.2.1 hno]
  unfold timespec_le at hle
  unfold floor_ms
  omega

/-- C20, counterexample to the wording "tv_sec * 1000 does not overflow": for
`a = {0, 0}` and `b = {9223372036854775, 999000000}` both nanosecond fields are
in range and both products `tv_sec * 1000` fit 64 bits, but the sum
`9223372036854775000 + 999` does not, and `time_diff_ms(a, b)` is not
floor-milliseconds(b) minus floor-milliseconds(a), a number no `long long` can
hold. -/
theorem C20_sum_overflow_counterexample :
    fits64 ((⟨0, 0⟩ : timespec).tv_sec * 1000) ∧
    fits64 ((⟨9223372036854775, 999000000⟩ : timespec).tv_sec * 1000) ∧
    floor_ms ⟨9223372036854775, 999000000⟩ - floor_ms ⟨0, 0⟩ = 9223372036854775999 ∧
    ¬ fits64 (floor_ms ⟨9223372036854775, 999000000⟩ - floor_ms ⟨0, 0⟩) ∧
    time_diff_ms ⟨0, 0⟩ ⟨9223372036854775, 999000000⟩ ≠
      floor_ms ⟨9223372036854775, 999000000⟩ - floor_ms ⟨0, 0⟩ := by
  decide

/-- C20 amended (accuracy of `time_diff_ms`): for timestamps with
`0 <= tv_nsec < 10^9` and no intermediate result of `time_diff_ms` outside the
64-bit signed range, `time_diff_ms(a, b)` is floor-milliseconds(b) minus
floor-milliseconds(a), it differs from the elapsed time in nanoseconds by less
than one millisecond, `time_diff_ms(a, a) = 0`, and
`time_diff_ms(a, b) + time_diff_ms(b, c) = time_diff_ms(a, c)`. -/
theorem C20_time_diff_ms_accuracy (a b c : timespec)
    (ha : 0 ≤ a.tv_nsec ∧ a.tv_nsec < 1000000000)
    (hb : 0 ≤ b.tv_nsec ∧ b.tv_nsec < 1000000000)
    (hc : 0 ≤ c.tv_nsec ∧ c.tv_nsec < 1000000000)
    (hab : no_overflow a b) (hbc : no_overflow b c) (hac : no_overflow a c) :
    time_diff_ms a b = floor_ms b - floor_ms a ∧
    |time_diff_ms a b * 1000000 -
      ((b.tv_sec - a.tv_sec) * 1000000000 + b.tv_nsec - a.tv_nsec)| < 1000000 ∧
    time_diff_ms a a = 0 ∧
    time_diff_ms a b + time_diff_ms b c = time_diff_ms a c := by
  have eab := time_diff_ms_eq a b ha.1 hb.1 hab
  have ebc := time_diff_ms_eq b c hb.1 hc.1 hbc
  have eac := time_diff_ms_eq a c ha.1 hc.1 hac
  refine ⟨eab, ?_, ?_, ?_⟩
  · rw [eab, abs_lt]
    unfold floor_ms
    omega
  · unfold time_diff_ms wrap64
    simp
  · rw [eab, ebc, eac]
    ring

/-- Witness of C20 amended: 5.0009 s, 5.0701 s and 6.2 s. -/
theorem C20_time_diff_ms_accuracy_witness :
    time_diff_ms ⟨5, 900000⟩ ⟨5, 70100000⟩ = floor_ms ⟨5, 70100000⟩ - floor_ms ⟨5, 900000⟩ ∧
    |time_diff_ms ⟨5, 900000⟩ ⟨5, 70100000⟩ * 1000000 -
      (((⟨5, 70100000⟩ : timespec).tv_sec - (⟨5, 900000⟩ : timespec).tv_sec) * 1000000000 +
        (⟨5, 70100000⟩ : timespec).tv_nsec - (⟨5, 900000⟩ : timespec).tv_nsec)| < 1000000 ∧
    time_diff_ms ⟨5, 900000⟩ ⟨5, 900000⟩ = 0 ∧
    time_diff_ms ⟨5, 900000⟩ ⟨5, 70100000⟩ + time_diff_ms ⟨5, 70100000⟩ ⟨6, 200000000⟩ =
      time_diff_ms ⟨5, 900000⟩ ⟨6, 200000000⟩ :=
  C20_time_diff_ms_accuracy ⟨5, 900000⟩ ⟨5, 70100000⟩ ⟨6, 200000000⟩ (by decide) (by decide)
    (by decide) (by decide) (by decide) (by decide)

/-- A valid clock reading outside the grace period of a valid startup time is at
least one second, so its `tv_sec` is not 0. -/
theorem sec_ne_zero_outside_grace (st t : timespec) (hst : clock_ok st) (ht : clock_ok t)
    (hg : ¬ time_diff_ms st t < startup_grace_ms) : t.tv_sec ≠ 0 := by
  have hno : no_overflow st t := by
    unfold clock_ok floor_ms at hst ht
    unfold no_overflow fits64 floor_ms
    omega
  rw [time_diff_ms_eq st t hst.2.1 ht.2.1 hno] at hg
  unfold clock_ok floor_ms at hst ht
  unfold floor_ms startup_grace_ms at hg
  omega

/-- C11 (the example scenario of the spec): from the zero table, with the
startup time and the first press valid readings of the monotonic clock, key 30
is pressed at `t0`, released at `t1`, pressed at `t2` and `t3` and released at
`t4`, where the presses at `t0` and `t2` are processed outside the grace period
and the presses at `t2` and `t3` come 70 ms and 200 ms after `t0` (the times 0,
50, 70, 200, 250 ms of the scenario counted from the first press).  The five
events are decided forward, forward, drop, forward, forward, and `is_pressed`
of key 30 after each of them is 1, 0, 0, 1, 0. -/
theorem C11_example_scenario (startup_time t0 t1 t2 t3 t4 : timespec)
    (hst : clock_ok startup_time) (ht0 : clock_ok t0)
    (hg0 : ¬ time_diff_ms startup_time t0 < startup_grace_ms)
    (hg2 : ¬ time_diff_ms startup_time t2 < startup_grace_ms)
    (h2 : time_diff_ms t0 t2 = 70) (h3 : time_diff_ms t0 t3 = 200) :
    forwards startup_time zero_table (key_event 30 1) t0 ∧
    (table_after startup_time zero_table [(key_event 30 1, t0)]
      ⟨30, by decide⟩).is_pressed = 1 ∧
    forwards startup_time (table_after startup_time zero_table [(key_event 30 1, t0)])
      (key_event 30 0) t1 ∧
    (table_after startup_time zero_table [(key_event 30 1, t0), (key_event 30 0, t1)]
      ⟨30, by decide⟩).is_pressed = 0 ∧
    drops startup_time
      (table_after startup_time zero_table [(key_event 30 1, t0), (key_event 30 0, t1)])
      (key_event 30 1) t2 ∧
    (table_after startup_time zero_table
      [(key_event 30 1, t0), (key_event 30 0, t1), (key_event 30 1, t2)]
      ⟨30, by decide⟩).is_pressed = 0 ∧
    forwards startup_time
      (table_after startup_time zero_table
        [(key_event 30 1, t0), (key_event 30 0, t1), (key_event 30 1, t2)])
      (key_event 30 1) t3 ∧
    (table_after startup_time zero_table
      [(key_event 30 1, t0), (key_event 30 0, t1), (key_event 30 1, t2),
        (key_event 30 1, t3)] ⟨30, by decide⟩).is_pressed = 1 ∧
    forwards startup_time
      (table_after startup_time zero_table
        [(key_event 30 1, t0), (key_event 30 0, t1), (key_event 30 1, t2),
          (key_event 30 1, t3)])
      (key_event 30 0) t4 ∧
    (table_after startup_time zero_table
      [(key_event 30 1, t0), (key_event 30 0, t1), (key_event 30 1, t2),
        (key_event 30 1, t3), (key_event 30 0, t4)] ⟨30, by decide⟩).is_pressed = 0 :=
  example_scenario_of_sec startup_time t0 t1 t2 t3 t4
    (sec_ne_zero_outside_grace startup_time t0 hst ht0 hg0) hg2 h2 h3

/-- Witness of C11: the scenario with the first press at 5.000 s, that is at
5.000, 5.050, 5.070, 5.200 and 5.250 s, with startup at 0.5 s. -/
theorem C11_example_scenario_witness :
    forwards ⟨0, 500000000⟩ zero_table (key_event 30 1) ⟨5, 0⟩ ∧
    drops ⟨0, 500000000⟩
      (table_after ⟨0, 500000000⟩ zero_table
        [(key_event 30 1, ⟨5, 0⟩), (key_event 30 0, ⟨5, 50000000⟩)])
      (key_event 30 1) ⟨5, 70000000⟩ ∧
    forwards ⟨0, 500000000⟩
      (table_after ⟨0, 500000000⟩ zero_table
        [(key_event 30 1, ⟨5, 0⟩), (key_event 30 0, ⟨5, 50000000⟩),
          (key_event 30 1, ⟨5, 70000000⟩)])
      (key_event 30 1) ⟨5, 200000000⟩ :=
  have h := C11_example_scenario ⟨0, 500000000⟩ ⟨5, 0⟩ ⟨5, 50000000⟩ ⟨5, 70000000⟩
    ⟨5, 200000000⟩ ⟨5, 250000000⟩ (by decide) (by decide) (by decide) (by decide) (by decide)
    (by decide)
  ⟨h.1, h.2.2.2.2.1, h.2.2.2.2.2.2.1⟩

/-- An event cannot be both forwarded and dropped. -/
theorem not_forwards_of_drops (st : timespec) (ks : KeyTable) (ev : input_event)
    (now : timespec) (hd : drops st ks ev now) : ¬ forwards st ks ev now := by
  unfold drops at hd
  unfold forwards
  rw [hd]
  simp

/-- Over events among which no press of `k` is forwarded, `last_press` of `k`
stays what it was, and `is_pressed` of `k` is 0 at the end if a release of `k`
is among them. -/
theorem quiet_run (st : timespec) (ks : KeyTable) (k : Nat) (hk : k < MAX_KEYS)
    (mid : List (input_event × timespec))
    (hquiet : ∀ m1 x m2, mid = m1 ++ x :: m2 → addresses k x.1 → x.1.value = 1 →
      ¬ forwards st (table_after st ks m1) x.1 x.2) :
    (table_after st ks mid ⟨k, hk⟩).last_press = (ks ⟨k, hk⟩).last_press ∧
    ((∃ x ∈ mid, addresses k x.1 ∧ x.1.value = 0) →
      (table_after st ks mid ⟨k, hk⟩).is_pressed = 0) := by
  induction mid using List.reverseRecOn with
  | nil =>
    refine ⟨rfl, ?_⟩
    rintro ⟨x, hx, _⟩
    exact absurd hx (List.not_mem_nil x)
  | append_singleton l a ih =>
    have ihl := ih (fun m1 x m2 hsplit => hquiet m1 x (m2 ++ [a]) (by rw [hsplit]; simp))
    obtain ⟨ev, now⟩ := a
    rw [table_after_append]
    rcases cell_step st (table_after st ks l) ev now k hk with
      ⟨_, _, hc⟩ | ⟨ha, hv, hf, _⟩ | ⟨hnr, _, hc⟩
    · rw [hc]
      exact ⟨ihl.1, fun _ => rfl⟩
    · exact absurd hf (hquiet l (ev, now) [] rfl ha hv)
    · rw [hc]
      refine ⟨ihl.1, ?_⟩
      rintro ⟨x, hx, hxr⟩
      rcases List.mem_append.mp hx with hx | hx
      · exact ihl.2 ⟨x, hx, hxr⟩
      · rw [List.mem_singleton.mp hx] at hxr
        exact absurd hxr hnr

/-- C17 (output-level debounce guarantee): let a press of a tracked key
`k` be forwarded at `ta` and another at `tb`, with no forwarded press of `k`
and at least one release of `k` among the events between them, the later press
processed outside the grace period, `ta.tv_sec != 0`, `ta` not after `tb`, and
both readings valid readings of the monotonic clock (seconds not negative,
nanoseconds below one second, milliseconds inside the 64-bit signed range).
Then `time_diff_ms(ta, tb)` is 0 or at least `DEBOUNCE_TIME_MS`. -/
theorem C17_output_debounce (startup_time : timespec) (ks : KeyTable) (k : Nat)
    (ta tb : timespec) (mid : List (input_event × timespec)) (hk : k < MAX_KEYS)
    (hfa : forwards startup_time ks (key_event k 1) ta)
    (hquiet : ∀ m1 x m2, mid = m1 ++ x :: m2 → addresses k x.1 → x.1.value = 1 →
      ¬ forwards startup_time
        (table_after startup_time ks ([(key_event k 1, ta)] ++ m1)) x.1 x.2)
    (hrel : ∃ x ∈ mid, addresses k x.1 ∧ x.1.value = 0)
    (hfb : forwards startup_time
      (table_after startup_time ks ([(key_event k 1, ta)] ++ mid)) (key_event k 1) tb)
    (hgrace : ¬ time_diff_ms startup_time tb < startup_grace_ms)
    (hsec : ta.tv_sec ≠ 0)
    (hle : timespec_le ta tb) (hoka : clock_ok ta) (hokb : clock_ok tb) :
    time_diff_ms ta tb = 0 ∨ DEBOUNCE_TIME_MS ≤ time_diff_ms ta tb := by
  have hq := quiet_run startup_time (table_after startup_time ks [(key_event k 1, ta)]) k hk mid
    (fun m1 x m2 hsplit ha hv => by
      rw [← table_after_append]
      exact hquiet m1 x m2 hsplit ha hv)
  have hcell : table_after startup_time ks ([(key_event k 1, ta)] ++ mid) ⟨k, hk⟩ = ⟨ta, 0⟩ := by
    rw [table_after_append]
    have h1 := hq.1
    have h2 := hq.2 hrel
    rw [forwarded_press_cell startup_time ks k hk ta hfa] at h1
    generalize table_after startup_time
      (table_after startup_time ks [(key_event k 1, ta)]) mid ⟨k, hk⟩ = c at h1 h2
    obtain ⟨lp, ip⟩ := c
    simp only at h1 h2
    rw [h1, h2]
  have hnb : ¬ bounce_cond
      (table_after startup_time ks ([(key_event k 1, ta)] ++ mid) ⟨k, hk⟩) tb := fun hb =>
    not_forwards_of_drops startup_time _ _ tb
      (press_dropped_of startup_time _ k hk tb hgrace hb).1 hfb
  rw [hcell] at hnb
  have hnn := time_diff_ms_nonneg ta tb hoka hokb hle
  by_contra hcon
  push_neg at hcon
  apply hnb
  refine ⟨hsec, ?_, hcon.2, rfl⟩
  exact lt_of_le_of_ne hnn (Ne.symm hcon.1)

/-- Witness of C17: key 30 pressed at 5.000 s, released at 5.050 s,
pressed at 5.070 s (dropped) and pressed at 5.200 s (forwarded). -/
theorem C17_output_debounce_witness :
    time_diff_ms ⟨5, 0⟩ ⟨5, 200000000⟩ = 0 ∨
      DEBOUNCE_TIME_MS ≤ time_diff_ms ⟨5, 0⟩ ⟨5, 200000000⟩ :=
  C17_output_debounce ⟨0, 0⟩ zero_table 30 ⟨5, 0⟩ ⟨5, 200000000⟩
    [(key_event 30 0, ⟨5, 50000000⟩), (key_event 30 1, ⟨5, 70000000⟩)] (by decide) (by decide)
    (by
      intro m1 x m2 hsplit ha hv
      rcases m1 with _ | ⟨y, m1⟩
      · simp only [List.nil_append, List.cons.injEq] at hsplit
        rw [← hsplit.1] at hv
        exact absurd hv (by decide)
      · rcases m1 with _ | ⟨z, m1⟩
        · simp only [List.cons_append, List.nil_append, List.cons.injEq] at hsplit
          obtain ⟨hy, hx, _⟩ := hsplit
          rw [← hy, ← hx]
          decide
        · simp at hsplit)
    ⟨(key_event 30 0, ⟨5, 50000000⟩), by simp, by decide⟩ (by decide) (by decide) (by decide)
    (by decide) (by decide) (by decide)

/-- C18 (the absent-timestamp sentinel): for a press of a tracked key, a stored
`last_press` with `tv_sec == 0` counts as absent whatever its `tv_nsec` and
whatever `is_pressed`: the press is forwarded and stores `(now, 1)`; with
`tv_sec != 0` and outside the grace period the press is dropped exactly when
`is_pressed` is 0 and `time_diff_ms(last_press, now)` is above 0 and below
`DEBOUNCE_TIME_MS`.  In particular, with startup at 0, a press of key 30 at
0.950 s (accepted in the grace period), its release at 0.980 s and a second
press at 1.020 s, outside the grace period and 70 ms after the first, are all
forwarded: the bounce is not suppressed. -/
theorem C18_absent_sentinel (startup_time : timespec) (ks : KeyTable) (k : Nat)
    (now : timespec) (hk : k < MAX_KEYS) :
    ((ks ⟨k, hk⟩).last_press.tv_sec = 0 →
      forwards startup_time ks (key_event k 1) now ∧
      table_after startup_time ks [(key_event k 1, now)] ⟨k, hk⟩ = ⟨now, 1⟩) ∧
    ((ks ⟨k, hk⟩).last_press.tv_sec ≠ 0 →
      ¬ time_diff_ms startup_time now < startup_grace_ms →
      (drops startup_time ks (key_event k 1) now ↔
        (ks ⟨k, hk⟩).is_pressed = 0 ∧ 0 < time_diff_ms (ks ⟨k, hk⟩).last_press now ∧
          time_diff_ms (ks ⟨k, hk⟩).last_press now < DEBOUNCE_TIME_MS)) ∧
    (time_diff_ms ⟨0, 0⟩ ⟨0, 950000000⟩ < startup_grace_ms ∧
      forwards ⟨0, 0⟩ zero_table (key_event 30 1) ⟨0, 950000000⟩ ∧
      table_after ⟨0, 0⟩ zero_table
        [(key_event 30 1, ⟨0, 950000000⟩), (key_event 30 0, ⟨0, 980000000⟩)]
        ⟨30, by decide⟩ = ⟨⟨0, 950000000⟩, 0⟩ ∧
      ¬ time_diff_ms ⟨0, 0⟩ ⟨1, 20000000⟩ < startup_grace_ms ∧
      time_diff_ms ⟨0, 950000000⟩ ⟨1, 20000000⟩ = 70 ∧
      forwards ⟨0, 0⟩
        (table_after ⟨0, 0⟩ zero_table
          [(key_event 30 1, ⟨0, 950000000⟩), (key_event 30 0, ⟨0, 980000000⟩)])
        (key_event 30 1) ⟨1, 20000000⟩) := by
  refine ⟨fun hsec => ?_, fun hsec hg => ?_, by decide⟩
  · exact press_forwarded_of startup_time ks k hk now (Or.inr (fun hb => hb.1 hsec))
  · constructor
    · intro hd
      by_contra hcon
      have hnb : ¬ bounce_cond (ks ⟨k, hk⟩) now := fun hb => hcon ⟨hb.2.2.2, hb.2.1, hb.2.2.1⟩
      exact not_forwards_of_drops startup_time ks _ now hd
        (press_forwarded_of startup_time ks k hk now (Or.inr hnb)).1
    · rintro ⟨hp, hlo, hhi⟩
      exact (press_dropped_of startup_time ks k hk now hg ⟨hsec, hlo, hhi, hp⟩).1

/-- Witness of C18: the cell of key 30 holds a press at 0.950 s and the key is
released; it is pressed again at 1.020 s. -/
theorem C18_absent_sentinel_witness :
    forwards ⟨0, 0⟩ (Function.update zero_table ⟨30, by decide⟩ ⟨⟨0, 950000000⟩, 0⟩)
      (key_event 30 1) ⟨1, 20000000⟩ ∧
    table_after ⟨0, 0⟩ (Function.update zero_table ⟨30, by decide⟩ ⟨⟨0, 950000000⟩, 0⟩)
      [(key_event 30 1, ⟨1, 20000000⟩)] ⟨30, by decide⟩ = ⟨⟨1, 20000000⟩, 1⟩ :=
  (C18_absent_sentinel ⟨0, 0⟩ (Function.update zero_table ⟨30, by decide⟩ ⟨⟨0, 950000000⟩, 0⟩)
    30 ⟨1, 20000000⟩ (by decide)).1 (by decide)

/-- The loop body on an event addressing cell `k` reads and writes that cell
only: two tables that agree on the cell give the same decision and the same
cell afterwards. -/
theorem key_step_local (st : timespec) (ks1 ks2 : KeyTable) (ev : input_event)
    (now : timespec) (k : Nat) (hk : k < MAX_KEYS) (ha : addresses k ev)
    (hcell : ks1 ⟨k, hk⟩ = ks2 ⟨k, hk⟩) (r1 r2 : LoopResult)
    (h1 : loop_body st ks1 ev now = some r1) (h2 : loop_body st ks2 ev now = some r2) :
    r1.written = r2.written ∧ r1.key_states ⟨k, hk⟩ = r2.key_states ⟨k, hk⟩ := by
  obtain ⟨ht, hc⟩ := ha
  subst hc
  rw [loop_body_key st ks1 ev now ht hk] at h1
  rw [loop_body_key st ks2 ev now ht hk] at h2
  rw [hcell] at h1
  have e1 := (Option.some.inj h1).symm
  have e2 := (Option.some.inj h2).symm
  subst e1 e2
  split_ifs
  all_goals simp [hcell]

theorem decisions_cons (st : timespec) (ks : KeyTable) (ev : input_event) (now : timespec)
    (rest : List (input_event × timespec)) (r : LoopResult)
    (hr : loop_body st ks ev now = some r) :
    decisions st ks ((ev, now) :: rest) =
      (ev, now, r.written.isSome) :: decisions st r.key_states rest := by
  simp [decisions, hr]

/-- The decisions on the events addressing `k` and the final cell `k` are those
of the loop over the events addressing `k` alone, from any table with the same
cell `k`. -/
theorem decisions_filter (st : timespec) (k : Nat) (hk : k < MAX_KEYS)
    (evs : List (input_event × timespec)) :
    ∀ ks1 ks2 : KeyTable, ks1 ⟨k, hk⟩ = ks2 ⟨k, hk⟩ →
      (decisions st ks1 evs).filter (fun d => decide (addresses k d.1)) =
        decisions st ks2 (evs.filter (fun e => decide (addresses k e.1))) ∧
      table_after st ks1 evs ⟨k, hk⟩ =
        table_after st ks2 (evs.filter (fun e => decide (addresses k e.1))) ⟨k, hk⟩ := by
  induction evs with
  | nil => intro ks1 ks2 h; exact ⟨rfl, h⟩
  | cons e rest ih =>
    intro ks1 ks2 hcell
    obtain ⟨ev, now⟩ := e
    obtain ⟨r1, hr1, _⟩ := loop_body_written st ks1 ev now
    rw [decisions_cons st ks1 ev now rest r1 hr1, table_after_cons st ks1 ev now rest r1 hr1]
    by_cases ha : addresses k ev
    · obtain ⟨r2, hr2, _⟩ := loop_body_written st ks2 ev now
      obtain ⟨hw, hc⟩ := key_step_local st ks1 ks2 ev now k hk ha hcell r1 r2 hr1 hr2
      obtain ⟨ih1, ih2⟩ := ih r1.key_states r2.key_states hc
      have hf : List.filter (fun e : input_event × timespec => decide (addresses k e.1))
          ((ev, now) :: rest) =
          (ev, now) :: List.filter (fun e => decide (addresses k e.1)) rest := by
        simp [ha]
      rw [hf, decisions_cons st ks2 ev now _ r2 hr2, table_after_cons st ks2 ev now _ r2 hr2]
      refine ⟨?_, ih2⟩
      rw [List.filter_cons_of_pos (by simp [ha]), ih1, hw]
    · have hc : r1.key_states ⟨k, hk⟩ = ks2 ⟨k, hk⟩ := by
        rw [loop_body_frame st ks1 ev now r1 hr1 k hk ha]
        exact hcell
      obtain ⟨ih1, ih2⟩ := ih r1.key_states ks2 hc
      have hf : List.filter (fun e : input_event × timespec => decide (addresses k e.1))
          ((ev, now) :: rest) = List.filter (fun e => decide (addresses k e.1)) rest := by
        simp [ha]
      rw [hf]
      refine ⟨?_, ih2⟩
      rw [List.filter_cons_of_neg (by simp [ha]), ih1]

/-- C19 (per-key independence): two sequences of events whose events addressing
the tracked key `k` are the same, with the same clock readings and in the same
order, processed with the same startup time from tables that agree on cell `k`,
get the same forward-or-drop decisions on the events addressing `k` and end
with the same cell `k`; and the loop body never changes a cell other than the
one addressed by the event it processes. -/
theorem C19_per_key_independence (startup_time : timespec) (ks1 ks2 : KeyTable)
    (evs1 evs2 : List (input_event × timespec)) (k : Nat) (hk : k < MAX_KEYS)
    (hcell : ks1 ⟨k, hk⟩ = ks2 ⟨k, hk⟩)
    (hsame : evs1.filter (fun e => decide (addresses k e.1)) =
      evs2.filter (fun e => decide (addresses k e.1))) :
    (decisions startup_time ks1 evs1).filter (fun d => decide (addresses k d.1)) =
      (decisions startup_time ks2 evs2).filter (fun d => decide (addresses k d.1)) ∧
    table_after startup_time ks1 evs1 ⟨k, hk⟩ = table_after startup_time ks2 evs2 ⟨k, hk⟩ ∧
    (∀ (ks : KeyTable) (ev : input_event) (now : timespec) (r : LoopResult) (j : Nat)
        (hj : j < MAX_KEYS), loop_body startup_time ks ev now = some r → ¬ addresses j ev →
      r.key_states ⟨j, hj⟩ = ks ⟨j, hj⟩) := by
  obtain ⟨a1, a2⟩ := decisions_filter startup_time k hk evs1 ks1 ks2 hcell
  obtain ⟨b1, b2⟩ := decisions_filter startup_time k hk evs2 ks2 ks2 rfl
  refine ⟨?_, ?_, ?_⟩
  · rw [a1, b1, hsame]
  · rw [a2, b2, hsame]
  · intro ks ev now r j hj hr hna
    exact loop_body_frame startup_time ks ev now r hr j hj hna

/-- Witness of C19: the press, release and early second press of key 30, alone
and interleaved with events of key 31 and a synchronisation event. -/
theorem C19_per_key_independence_witness :
    (decisions ⟨0, 0⟩ zero_table
        [(key_event 30 1, ⟨5, 0⟩), (key_event 30 0, ⟨5, 50000000⟩),
          (key_event 30 1, ⟨5, 70000000⟩)]).filter (fun d => decide (addresses 30 d.1)) =
      (decisions ⟨0, 0⟩ zero_table
        [(key_event 31 1, ⟨4, 990000000⟩), (key_event 30 1, ⟨5, 0⟩), (⟨0, 0, 0⟩, ⟨5, 0⟩),
          (key_event 30 0, ⟨5, 50000000⟩), (key_event 31 0, ⟨5, 60000000⟩),
          (key_event 30 1, ⟨5, 70000000⟩)]).filter (fun d => decide (addresses 30 d.1)) ∧
    table_after ⟨0, 0⟩ zero_table
        [(key_event 30 1, ⟨5, 0⟩), (key_event 30 0, ⟨5, 50000000⟩),
          (key_event 30 1, ⟨5, 70000000⟩)] ⟨30, by decide⟩ =
      table_after ⟨0, 0⟩ zero_table
        [(key_event 31 1, ⟨4, 990000000⟩), (key_event 30 1, ⟨5, 0⟩), (⟨0, 0, 0⟩, ⟨5, 0⟩),
          (key_event 30 0, ⟨5, 50000000⟩), (key_event 31 0, ⟨5, 60000000⟩),
          (key_event 30 1, ⟨5, 70000000⟩)] ⟨30, by decide⟩ :=
  have h := C19_per_key_independence ⟨0, 0⟩ zero_table zero_table
    [(key_event 30 1, ⟨5, 0⟩), (key_event 30 0, ⟨5, 50000000⟩), (key_event 30 1, ⟨5, 70000000⟩)]
    [(key_event 31 1, ⟨4, 990000000⟩), (key_event 30 1, ⟨5, 0⟩), (⟨0, 0, 0⟩, ⟨5, 0⟩),
      (key_event 30 0, ⟨5, 50000000⟩), (key_event 31 0, ⟨5, 60000000⟩),
      (key_event 30 1, ⟨5, 70000000⟩)] 30 (by decide) rfl (by decide)
  ⟨h.1, h.2.1⟩

end Keybinder
